import Mathlib

/-!
Shallow embedding of the ZubeResume text-normalization pipeline
(backend/text_processor.py, backend/file_generator.py,
backend/advanced_file_generator_v2.py, backend/markdown_converter.py).

Strings are modelled as Lean String / List Char.  Python regular
expressions are modelled by explicit left-to-right scans that mimic
re.sub semantics: the leftmost match is replaced and scanning resumes
after the consumed match (matches do not overlap).  The character
classes [a-zA-Z], [a-z], [A-Z] and the digit class are the ASCII classes
(the resume text handled by the pipeline is ASCII-normalized; Python's
unicode digits/whitespace beyond ASCII are not distinguished here).
-/

namespace ZubeResume

/-- Python str whitespace characters (ASCII part of the \s class). -/
def isPyWS (c : Char) : Bool :=
  c == ' ' || c == '\t' || c == '\n' || c == '\x0d' || c == '\x0b' || c == '\x0c'

/-- Python str.strip on a character list: drop whitespace at both ends. -/
def pyStripL (l : List Char) : List Char :=
  ((l.dropWhile isPyWS).reverse.dropWhile isPyWS).reverse

/-- Python str.strip on a String. -/
def pyStripS (s : String) : String := String.mk (pyStripL s.data)

/-- Python str.lower (ASCII). -/
def strLower (s : String) : String := String.mk (s.data.map Char.toLower)

/-- Python str.upper (ASCII). -/
def strUpper (s : String) : String := String.mk (s.data.map Char.toUpper)

/-- Python s.startswith(pre), on the character lists. -/
def startsWithS (s pre : String) : Bool := pre.data.isPrefixOf s.data

/-!
### Artifact Repair: TextProcessor._fix_jamming_issues
(backend/text_processor.py lines 115-143)

Each regex substitution is one scan.  A matched occurrence is rewritten
and the scan resumes after it; on no match at the current position the
scan advances one character, exactly like re.sub.
-/

/-- re.sub(r'([a-zA-Z]),([a-zA-Z])', r'\1, \2', text) -/
def commaFix : List Char → List Char
  | c1 :: ',' :: c3 :: rest =>
    if c1.isAlpha && c3.isAlpha then c1 :: ',' :: ' ' :: c3 :: commaFix rest
    else c1 :: commaFix (',' :: c3 :: rest)
  | c :: rest => c :: commaFix rest
  | [] => []

/-- re.sub(r'([a-z])\.([A-Z])', r'\1. \2', text) -/
def periodFix : List Char → List Char
  | c1 :: '.' :: c3 :: rest =>
    if c1.isLower && c3.isUpper then c1 :: '.' :: ' ' :: c3 :: periodFix rest
    else c1 :: periodFix ('.' :: c3 :: rest)
  | c :: rest => c :: periodFix rest
  | [] => []

/-- re.sub(r'([a-zA-Z])\|([a-zA-Z])', r'\1 | \2', text) -/
def pipeFix : List Char → List Char
  | c1 :: '|' :: c3 :: rest =>
    if c1.isAlpha && c3.isAlpha then c1 :: ' ' :: '|' :: ' ' :: c3 :: pipeFix rest
    else c1 :: pipeFix ('|' :: c3 :: rest)
  | c :: rest => c :: pipeFix rest
  | [] => []

/-- re.sub(r'([a-zA-Z]):([a-zA-Z])', r'\1: \2', text) -/
def colonFix : List Char → List Char
  | c1 :: ':' :: c3 :: rest =>
    if c1.isAlpha && c3.isAlpha then c1 :: ':' :: ' ' :: c3 :: colonFix rest
    else c1 :: colonFix (':' :: c3 :: rest)
  | c :: rest => c :: colonFix rest
  | [] => []

/-- re.sub(r'(\d)([A-Za-z])', r'\1 \2', text) -/
def numberFix : List Char → List Char
  | c1 :: c2 :: rest =>
    if c1.isDigit && c2.isAlpha then c1 :: ' ' :: c2 :: numberFix rest
    else c1 :: numberFix (c2 :: rest)
  | l => l

/-- re.sub(r'(\d)%([A-Za-z])', r'\1% \2', text) -/
def percentFix : List Char → List Char
  | c1 :: '%' :: c3 :: rest =>
    if c1.isDigit && c3.isAlpha then c1 :: '%' :: ' ' :: c3 :: percentFix rest
    else c1 :: percentFix ('%' :: c3 :: rest)
  | c :: rest => c :: percentFix rest
  | [] => []

/-- re.sub(r'([a-z])([A-Z])', r'\1 \2', text) -/
def camelFix : List Char → List Char
  | c1 :: c2 :: rest =>
    if c1.isLower && c2.isUpper then c1 :: ' ' :: c2 :: camelFix rest
    else c1 :: camelFix (c2 :: rest)
  | l => l

/-- Helper fact for termination of run-consuming scans. -/
theorem dropWhile_length_le (p : Char → Bool) (l : List Char) :
    (l.dropWhile p).length ≤ l.length := by
  induction l with
  | nil => simp [List.dropWhile]
  | cons c rest ih =>
    by_cases h : p c
    · simp [List.dropWhile, h]; omega
    · simp [List.dropWhile, h]

/-- re.sub(r'  +', ' ', text): a run of two or more spaces collapses to
one.  The fuel argument only bounds the recursion depth so that the
scan is structurally recursive; every step consumes at least one input
character, so fuel equal to the input length always suffices, and the
wrapper below supplies it. -/
def spacesFixF : Nat → List Char → List Char
  | 0, l => l
  | _ + 1, [] => []
  | fuel + 1, ' ' :: ' ' :: rest =>
    ' ' :: spacesFixF fuel (rest.dropWhile (fun c => c == ' '))
  | fuel + 1, c :: rest => c :: spacesFixF fuel rest

/-- The space-collapsing substitution. -/
def spacesFix (l : List Char) : List Char := spacesFixF l.length l

/-- TextProcessor._fix_jamming_issues: the eight substitutions in source
order (comma, period, pipe, colon, number, percent, camelCase, spaces). -/
def fixJammingIssues (l : List Char) : List Char :=
  spacesFix (camelFix (percentFix (numberFix (colonFix (pipeFix (periodFix (commaFix l)))))))

/-- String-level wrapper for the jamming-repair pass. -/
def fixJammingStr (s : String) : String := String.mk (fixJammingIssues s.data)

/-- FileGenerator._basic_formatting_fixes (file_generator.py lines
105-115): the same six separator substitutions without the camelCase
and multi-space rules. -/
def basicFormattingFixes (s : String) : String :=
  String.mk (percentFix (numberFix (colonFix (pipeFix (periodFix (commaFix s.data))))))

/-!
### TextProcessor._final_cleanup (text_processor.py lines 322-346)
Per line: strip, normalize pipes with re.sub(r'\s*\|\s*', ' | '),
collapse runs of blank lines to at most one, trim blank lines at both
ends of the document.
-/

/-- Split a character list at newline characters (Python str.split('\n')). -/
def splitLinesL : List Char → List (List Char)
  | [] => [[]]
  | '\n' :: rest => [] :: splitLinesL rest
  | c :: rest =>
    match splitLinesL rest with
    | h :: t => (c :: h) :: t
    | [] => [[c]]

/-- Python text.split('\n') as a list of Strings. -/
def splitLinesS (s : String) : List String := (splitLinesL s.data).map String.mk

/-- re.sub(r'\s*\|\s*', ' | ', line): every pipe together with the
whitespace around it becomes a single " | ". -/
def normPipesF : Nat → List Char → List Char
  | 0, l => l
  | _ + 1, [] => []
  | fuel + 1, c :: rest =>
    if c == '|' then ' ' :: '|' :: ' ' :: normPipesF fuel (rest.dropWhile isPyWS)
    else if isPyWS c then
      match (c :: rest).dropWhile isPyWS with
      | '|' :: r2 => ' ' :: '|' :: ' ' :: normPipesF fuel (r2.dropWhile isPyWS)
      | _ => c :: normPipesF fuel rest
    else c :: normPipesF fuel rest

/-- The pipe-normalizing substitution (fuel bounds the recursion depth;
the input length always suffices). -/
def normPipes (l : List Char) : List Char := normPipesF l.length l

/-- The blank-collapsing loop of _final_cleanup: at most one consecutive
blank line is kept; non-blank lines are stripped and pipe-normalized. -/
def finalCleanupAux : Nat → List String → List String
  | _, [] => []
  | blank, line :: rest =>
    if pyStripS line == "" then
      if blank + 1 ≤ 1 then ("") :: finalCleanupAux (blank + 1) rest
      else finalCleanupAux (blank + 1) rest
    else String.mk (normPipes (pyStripL line.data)) :: finalCleanupAux 0 rest

/-- Remove blank lines from both ends of the document. -/
def trimBlankLines (l : List String) : List String :=
  ((l.dropWhile (fun s => s == "")).reverse.dropWhile (fun s => s == "")).reverse

/-- TextProcessor._final_cleanup. -/
def finalCleanup (text : String) : String :=
  String.intercalate ("\n") (trimBlankLines (finalCleanupAux 0 (splitLinesS text)))

/-!
### FileGenerator._parse_resume_sections (file_generator.py lines 341-415)

The partitioner normalizes newlines, collapses blank-line runs
(re.sub(r'\n\s*\n', '\n\n')), strips and whitespace-collapses each
line, then scans line by line against the section-pattern table,
accumulating each bucket and storing it in a dict when the next header
(or the end of input) is reached.  The source stores each bucket after
passing it through _clean_header_content / _clean_section_content; the
partition structure is modelled here with the raw bucket line lists
(the cleaning passes are separate stages, modelled independently).
-/

/-- replace('\r\n', '\n') followed by replace('\r', '\n'). -/
def normCR : List Char → List Char
  | '\x0d' :: '\n' :: rest => '\n' :: normCR rest
  | '\x0d' :: rest => '\n' :: normCR rest
  | c :: rest => c :: normCR rest
  | [] => []

/-- The whitespace-suffix of a run after its last newline. -/
def afterLastNL (run : List Char) : List Char :=
  (run.reverse.takeWhile (fun c => !(c == '\n'))).reverse

/-- re.sub(r'\n\s*\n', '\n\n', text): inside each maximal whitespace
run that contains at least two newlines, everything from the first
newline through the last newline becomes exactly two newlines. -/
def normBlankRunsF : Nat → List Char → List Char
  | 0, l => l
  | _ + 1, [] => []
  | fuel + 1, c :: rest =>
    if isPyWS c then
      let run := (c :: rest).takeWhile isPyWS
      let rest2 := (c :: rest).dropWhile isPyWS
      (if 2 ≤ run.count '\n' then
        run.takeWhile (fun d => !(d == '\n')) ++ '\n' :: '\n' :: afterLastNL run
      else run) ++ normBlankRunsF fuel rest2
    else c :: normBlankRunsF fuel rest

/-- The blank-run collapsing substitution (fuel bounds the recursion
depth; the input length always suffices). -/
def normBlankRuns (l : List Char) : List Char := normBlankRunsF l.length l

/-- re.sub(r'\s+', ' ', s): collapse every whitespace run to one space. -/
def collapseWSF : Nat → List Char → List Char
  | 0, l => l
  | _ + 1, [] => []
  | fuel + 1, c :: rest =>
    if isPyWS c then ' ' :: collapseWSF fuel (rest.dropWhile isPyWS)
    else c :: collapseWSF fuel rest

/-- The whitespace-collapsing substitution (fuel bounds the recursion
depth; the input length always suffices). -/
def collapseWS (l : List Char) : List Char := collapseWSF l.length l

/-- Per-line preprocessing of _parse_resume_sections (lines 360-370):
strip; a blank line stays a blank line, a non-blank line has its inner
whitespace collapsed. -/
def preprocessLine (l : String) : String :=
  let s := pyStripS l
  if s == "" then ("") else String.mk (collapseWS s.data)

/-- Tail allowed after a section keyword by the patterns r'...\s*:?\s*$'. -/
def headerTailOK : List Char → Bool
  | l =>
    match l.dropWhile isPyWS with
    | [] => true
    | ':' :: r => r.all isPyWS
    | _ => false

/-- One alternative of a section pattern: the keyword as a prefix
followed by an admissible tail. -/
def matchAlt (lu : List Char) (alt : String) : Bool :=
  alt.data.isPrefixOf lu && headerTailOK (lu.drop alt.data.length)

/-- The section_patterns table of _parse_resume_sections, matched in
dict insertion order against line.upper().strip(); the first matching
entry wins. -/
def matchSection (line : String) : Option String :=
  let lu := pyStripL (line.data.map Char.toUpper)
  if [("PROFESSIONAL SUMMARY"), ("SUMMARY"), ("OBJECTIVE"), ("PROFILE"), ("ABOUT"),
      ("CAREER SUMMARY")].any (matchAlt lu) then some ("summary")
  else if [("SKILLS"), ("TECHNICAL SKILLS"), ("CORE COMPETENCIES"), ("TECHNOLOGIES"),
      ("CORE TECHNICAL SKILLS"), ("TECHNICAL COMPETENCIES")].any (matchAlt lu) then some ("skills")
  else if [("EXPERIENCE"), ("WORK EXPERIENCE"), ("PROFESSIONAL EXPERIENCE"), ("EMPLOYMENT"),
      ("PROJECT EXPERIENCE"), ("WORK HISTORY")].any (matchAlt lu) then some ("experience")
  else if [("EDUCATION"), ("ACADEMIC BACKGROUND"), ("QUALIFICATIONS"),
      ("ACADEMIC QUALIFICATIONS"), ("EDUCATIONAL BACKGROUND")].any (matchAlt lu) then some ("education")
  else if [("PROJECTS"), ("KEY PROJECTS"), ("NOTABLE PROJECTS"),
      ("PERSONAL PROJECTS")].any (matchAlt lu) then some ("projects")
  else if [("CERTIFICATIONS"), ("CERTIFICATES"), ("PROFESSIONAL CERTIFICATIONS"),
      ("CREDENTIALS")].any (matchAlt lu) then some ("certifications")
  else if [("ACHIEVEMENTS"), ("ACCOMPLISHMENTS"), ("AWARDS"), ("HONORS"),
      ("RESEARCH INTERESTS")].any (matchAlt lu) then some ("achievements")
  else none

/-- The header test performed in the scan loop: only non-blank lines
are matched against the pattern table. -/
def matchLine (line : String) : Option String :=
  if pyStripS line == "" then none else matchSection line

/-- Python dict assignment d[k] = v: update in place if the key exists,
else append at the end. -/
def dictInsert (k : String) (v : List String) (d : List (String × List String)) :
    List (String × List String) :=
  if d.any (fun p => p.1 == k) then
    d.map (fun p => if p.1 == k then (k, v) else p)
  else d ++ [(k, v)]

/-- Store the bucket accumulated so far (lines 391-396 and 409-413):
a non-empty bucket is stored under the current section name.  In the
source the stored value additionally passes through
_clean_header_content (for the header) or _clean_section_content; the
raw line list is kept here. -/
def bucketSave (d : List (String × List String)) (cur : String) (content : List String) :
    List (String × List String) :=
  if content.isEmpty then d else dictInsert cur content d

/-- The scan loop of _parse_resume_sections (lines 372-413).  A header
line closes the current bucket and opens a new one named by the matched
section; every other line (the two identical branches at lines 402-407)
is appended to the open bucket. -/
def parseAux (d : List (String × List String)) (cur : String) (content : List String) :
    List String → List (String × List String)
  | [] => bucketSave d cur content
  | line :: rest =>
    match matchLine line with
    | some name => parseAux (bucketSave d cur content) name [] rest
    | none => parseAux d cur (content ++ [line]) rest

/-- The partitioner on an already-preprocessed line list. -/
def parseBuckets (lines : List String) : List (String × List String) :=
  parseAux [] ("header") [] lines

/-- FileGenerator._parse_resume_sections, from raw text to buckets. -/
def parseResumeSections (text : String) : List (String × List String) :=
  parseBuckets ((splitLinesL (normBlankRuns (normCR text.data))).map
    (fun l => preprocessLine (String.mk l)))

/-- All bucket contents of a parse result, concatenated in bucket
order: the lines the partitioner assigned to some bucket. -/
def joinedBuckets (d : List (String × List String)) : List String :=
  (d.map Prod.snd).flatten

/-- FileGenerator._clean_header_content (file_generator.py lines
417-432): keep the stripped non-blank lines that are not standalone
title tokens, joined with newlines. -/
def cleanHeaderContent (contentLines : List String) : String :=
  String.intercalate ("\n")
    (contentLines.filterMap (fun l =>
      let s := pyStripS l
      if s == "" then none
      else if s == ("Dr.") || s == ("MD") || s == ("PhD") || s == ("O.D") then none
      else some s))

/-!
### AdvancedFileGeneratorV2._deduplicate_project_content
(advanced_file_generator_v2.py lines 190-266)

The fuzzy similarity score comes from the third-party fuzzywuzzy
library (fuzz.ratio, a 0-100 integer); it is not part of this
repository and is modelled as an explicit function parameter
sim : String → String → Nat, applied exactly where the source calls
fuzz.ratio (on the lower-cased block texts).
-/

/-- Group content lines into blocks separated by blank lines
(lines 196-208); blank lines themselves are discarded and a block
holds only its non-blank lines in order. -/
def groupAux (cur : List String) : List String → List (List String)
  | [] => if cur.isEmpty then [] else [cur]
  | l :: rest =>
    if pyStripS l == "" then
      if cur.isEmpty then groupAux [] rest else cur :: groupAux [] rest
    else groupAux (cur ++ [l]) rest

/-- Partition of the collected content lines into blank-separated blocks. -/
def groupBlocks (contentLines : List String) : List (List String) :=
  groupAux [] contentLines

/-- block_text: '\n'.join(l.strip() for l in block if l.strip()). -/
def blockText (block : List String) : String :=
  String.intercalate ("\n")
    (block.filterMap (fun l => let s := pyStripS l; if s == "" then none else some s))

/-- A block counts as bulleted when some stripped line starts with
'*' or '-' (lines 236-237); the renderer bullet "• " is not tested. -/
def blockHasBullets (block : List String) : Bool :=
  block.any (fun l => startsWithS (pyStripS l) ("*") || startsWithS (pyStripS l) ("-"))

/-- The inner loop over previously accepted unique blocks (lines
225-252): the first existing block whose similarity with the candidate
exceeds 80 marks the candidate a duplicate; the existing entry is
replaced in place when only the candidate is bulleted, otherwise kept.
Returns (duplicate-found, updated unique list). -/
def scanExisting (sim : String → String → Nat) (block : List String) :
    List (List String) → Bool × List (List String)
  | [] => (false, [])
  | eb :: rest =>
    if 80 < sim (strLower (blockText block)) (strLower (blockText eb)) then
      if blockHasBullets block && !(blockHasBullets eb) then (true, block :: rest)
      else (true, eb :: rest)
    else
      let r := scanExisting sim block rest
      (r.1, eb :: r.2)

/-- One iteration of the outer block loop (lines 214-257): blocks with
empty text are skipped; a non-duplicate is appended to the unique list. -/
def dedupStep (sim : String → String → Nat) (unique : List (List String))
    (block : List String) : List (List String) :=
  if blockText block == "" then unique
  else
    let r := scanExisting sim block unique
    if r.1 then r.2 else r.2 ++ [block]

/-- The accepted unique blocks, in first-seen order. -/
def dedupBlocks (sim : String → String → Nat) (blocks : List (List String)) :
    List (List String) :=
  blocks.foldl (dedupStep sim) []

/-- AdvancedFileGeneratorV2._deduplicate_project_content: group, filter
duplicates, then flatten the unique blocks back to lines with a blank
line after each block (lines 259-263). -/
def deduplicateProjectContent (sim : String → String → Nat)
    (contentLines : List String) : List String :=
  ((dedupBlocks sim (groupBlocks contentLines)).map (fun b => b ++ [("")])).flatten

/-!
### Scaffold stripping: AdvancedFileGeneratorV2.clean_markdown_text,
lines 50-61.  Python str.split(marker) semantics: parts[1] is the
segment strictly between the first and the second (non-overlapping)
occurrence of the marker, parts[0] the segment before the first.
-/

/-- Split at the first occurrence of pat: some (before, after) when pat
occurs, none otherwise. -/
def findSplit (pat : List Char) : List Char → Option (List Char × List Char)
  | [] => if pat.isEmpty then some ([], []) else none
  | c :: rest =>
    if pat.isPrefixOf (c :: rest) then some ([], (c :: rest).drop pat.length)
    else
      match findSplit pat rest with
      | some (p, s) => some (c :: p, s)
      | none => none

/-- Python's "pat in s" substring test. -/
def containsSubL (pat s : List Char) : Bool := (findSplit pat s).isSome

/-- Substring test on Strings. -/
def containsSubS (s pat : String) : Bool := containsSubL pat.data s.data

/-- s.split(pat)[0]: the segment before the first occurrence. -/
def pySplitPart0 (pat s : List Char) : List Char :=
  match findSplit pat s with
  | some (p, _) => p
  | none => s

/-- s.split(pat)[1]: the segment between the first occurrence and the
next non-overlapping occurrence (or the end). -/
def pySplitPart1 (pat s : List Char) : List Char :=
  match findSplit pat s with
  | some (_, rest) =>
    match findSplit pat rest with
    | some (mid, _) => mid
    | none => rest
  | none => s

/-- The LLM preamble marker tested by the stripper. -/
def preambleMarker : List Char := ("Here is the final, document-ready content").data

/-- Trailing marker cut with parts[0]. -/
def trailerMarker1 : List Char := ("This content is now perfectly structured").data

/-- Rest-of-preamble marker cut with parts[1]. -/
def trailerMarker2 : List Char := ("that will generate perfect files:").data

/-- The scaffold-stripping prefix of clean_markdown_text (lines 52-61):
text after the preamble marker, stripped, then cut before the first
trailing marker and after the rest-of-preamble marker when present;
text without the preamble marker passes through unchanged. -/
def scaffoldStripL (text : List Char) : List Char :=
  if containsSubL preambleMarker text then
    let t1 := pyStripL (pySplitPart1 preambleMarker text)
    let t2 := if containsSubL trailerMarker1 t1 then pyStripL (pySplitPart0 trailerMarker1 t1) else t1
    if containsSubL trailerMarker2 t2 then pyStripL (pySplitPart1 trailerMarker2 t2) else t2
  else text

/-- String-level scaffold stripper. -/
def scaffoldStrip (text : String) : String := String.mk (scaffoldStripL text.data)

/-!
### AdvancedFileGeneratorV2._restructure_header
(advanced_file_generator_v2.py lines 268-354)
-/

/-- replace('**', ''): remove non-overlapping double-star pairs,
left to right. -/
def remDblStar : List Char → List Char
  | '*' :: '*' :: r => remDblStar r
  | c :: r => c :: remDblStar r
  | [] => []

/-- replace('**', '').replace('*', ''): all stars are removed. -/
def remAllStars (l : List Char) : List Char := l.filter (fun c => !(c == '*'))

/-- The contact-info indicator list (lines 295 and 328). -/
def contactIndicators : List String :=
  [("@"), ("+"), ("nigeria"), ("abuja"), ("linkedin"), ("github"), (".com")]

/-- any(indicator in s.lower() for indicator in contactIndicators). -/
def isContactLine (s : String) : Bool :=
  contactIndicators.any (fun ind => containsSubS (strLower s) ind)

/-- line.upper().startswith('PROFESSIONAL') or line.startswith('##'). -/
def isSectionStartLine (s : String) : Bool :=
  startsWithS (strUpper s) ("PROFESSIONAL") || startsWithS s ("##")

/-- The job-title collection loop (lines 287-306): consume non-blank
lines before index 10 until a contact-looking or section line, keeping
star-cleaned titles longer than 5 characters. -/
def collectTitlesF (lines : List String) : Nat → Nat → List String → List String × Nat
  | 0, i, acc => (acc, i)
  | fuel + 1, i, acc =>
    if i < lines.length ∧ i < 10 then
      let nl := pyStripS (lines.getD i (""))
      if nl == "" then collectTitlesF lines fuel (i + 1) acc
      else if isContactLine nl then (acc, i)
      else if isSectionStartLine nl then (acc, i)
      else
        let ct := pyStripS (String.mk (remAllStars nl.data))
        if ct == "" || !(5 < ct.length) then collectTitlesF lines fuel (i + 1) acc
        else collectTitlesF lines fuel (i + 1) (acc ++ [ct])
    else (acc, i)

/-- The title loop; the loop index is bounded by 10, so fuel 10 always
covers every iteration the source loop performs. -/
def collectTitles (lines : List String) (i : Nat) (acc : List String) :
    List String × Nat :=
  collectTitlesF lines 10 i acc

/-- The contact collection loop (lines 315-330): consume lines before
index 20 until a section line; keep the star-cleaned lines that look
like contact info, silently skipping the others. -/
def collectContactsF (lines : List String) : Nat → Nat → List String → List String × Nat
  | 0, i, acc => (acc, i)
  | fuel + 1, i, acc =>
    if i < lines.length ∧ i < 20 then
      let cl := pyStripS (lines.getD i (""))
      if cl == "" then collectContactsF lines fuel (i + 1) acc
      else if isSectionStartLine cl then (acc, i)
      else
        let cc := pyStripS (String.mk (remAllStars cl.data))
        if cc == "" || !(isContactLine cc) then collectContactsF lines fuel (i + 1) acc
        else collectContactsF lines fuel (i + 1) (acc ++ [cc])
    else (acc, i)

/-- The contact loop; the loop index is bounded by 20, so fuel 20
always covers every iteration the source loop performs. -/
def collectContacts (lines : List String) (i : Nat) (acc : List String) :
    List String × Nat :=
  collectContactsF lines 20 i acc

/-- " | ".join -/
def joinPipe (items : List String) : String := String.intercalate (" | ") items

/-- The name the restructurer derives from a scanned raw line:
line.strip().replace('**', '').strip(). -/
def headerNameOf (s : String) : String :=
  pyStripS (String.mk (remDblStar (pyStripS s).data))

/-- The main header scan (lines 274-352).  The restructuring branch
fires only when the candidate line (the first line, or a line before
index 5 containing one of the hard-coded tokens) contains the literal
"Dr." after double-star removal; otherwise the scanned line is passed
through stripped, and once a 'PROFESSIONAL'/'##' line is seen the
remaining lines are passed through verbatim. -/
def rhAux (lines : List String) : Nat → Nat → List String
  | 0, _ => []
  | fuel + 1, i =>
    if i < lines.length then
      let line := pyStripS (lines.getD i (""))
      if i == 0 || (i < 5 && (containsSubS line ("Dr.") || containsSubS line ("Anthony") ||
          containsSubS line ("Anyanwu"))) then
        let name := pyStripS (String.mk (remDblStar line.data))
        if containsSubS name ("Dr.") then
          let ti := collectTitles lines (i + 1) []
          let co := collectContacts lines ti.2 []
          ((("# ") ++ name) ::
            ((if ti.1.isEmpty then [] else [(("## ") ++ joinPipe ti.1)]) ++
             (if co.1.isEmpty then [] else [joinPipe co.1]) ++ [("")])) ++
            lines.drop co.2
        else line :: rhAux lines fuel (i + 1)
      else
        line :: (if isSectionStartLine line then lines.drop (i + 1) else rhAux lines fuel (i + 1))
    else []

/-- AdvancedFileGeneratorV2._restructure_header on a line list.  The
main scan advances the index by one per iteration and stops at the end
of the line list, so fuel equal to the number of lines always covers
the source loop. -/
def restructureHeader (lines : List String) : List String := rhAux lines lines.length 0

/-- String-level wrapper: split on newlines, restructure, re-join. -/
def restructureHeaderStr (text : String) : String :=
  String.intercalate ("\n") (restructureHeader (splitLinesS text))

/-!
### AdvancedFileGeneratorV2.__init__ (lines 34-48)

The constructor records the output directory and the fixed pdfkit
option table; it accepts no similarity-threshold (or any other
normalization) configuration and performs no validation.  The
os.makedirs call is file-system I/O outside the text pipeline and has
no effect on any value modelled here.
-/

structure V2Generator where
  outputDir : String
  pdfOptions : List (String × Option String)
deriving Repr, DecidableEq

/-- The pdf_options dict set by __init__. -/
def defaultPdfOptions : List (String × Option String) :=
  [(("page-size"), some ("A4")), (("margin-top"), some ("0.5in")),
   (("margin-right"), some ("0.6in")), (("margin-bottom"), some ("0.5in")),
   (("margin-left"), some ("0.6in")), (("encoding"), some ("UTF-8")),
   (("no-outline"), none), (("enable-local-file-access"), none)]

/-- AdvancedFileGeneratorV2.__init__: total, no validation of anything. -/
def initV2 (outputDir : String) : V2Generator :=
  { outputDir := outputDir, pdfOptions := defaultPdfOptions }

/-!
### Occurrence predicates for the rewrite-rule patterns

hasTri P l says some window of three consecutive characters of l
satisfies P; hasPair P l the same for two.  These express "the scan
has a match somewhere" for the jamming rules.
-/

/-- The period-rule pattern [a-z]\.[A-Z]. -/
def periodPat (a b c : Char) : Bool := a.isLower && b == '.' && c.isUpper

/-- The percent-rule pattern (\d)%([A-Za-z]). -/
def percentPat (a b c : Char) : Bool := a.isDigit && b == '%' && c.isAlpha

/-- The number-rule pattern (\d)([A-Za-z]). -/
def numberPat (a b : Char) : Bool := a.isDigit && b.isAlpha

/-- The camelCase-rule pattern ([a-z])([A-Z]). -/
def camelPat (a b : Char) : Bool := a.isLower && b.isUpper

/-- The multi-space pattern: two consecutive spaces. -/
def dblSpacePat (a b : Char) : Bool := a == ' ' && b == ' '

/-- Window test at the head: P a l0 l1 when l has two characters. -/
def hasTriHead (P : Char → Char → Char → Bool) (a : Char) : List Char → Bool
  | b :: c :: _ => P a b c
  | _ => false

/-- Some three consecutive characters satisfy P. -/
def hasTri (P : Char → Char → Char → Bool) : List Char → Bool
  | [] => false
  | a :: l => hasTriHead P a l || hasTri P l

/-- Window test at the head: P a l0 when l is non-empty. -/
def hasPairHead (P : Char → Char → Bool) (a : Char) : List Char → Bool
  | b :: _ => P a b
  | _ => false

/-- Some two consecutive characters satisfy P. -/
def hasPair (P : Char → Char → Bool) : List Char → Bool
  | [] => false
  | a :: l => hasPairHead P a l || hasPair P l

/-- y is x with some space characters inserted.  Every jamming rule
other than the space-collapsing one transforms its input this way. -/
inductive SpaceIns : List Char → List Char → Prop
  | nil : SpaceIns [] []
  | cons (c : Char) {x y : List Char} : SpaceIns x y → SpaceIns (c :: x) (c :: y)
  | sp {x y : List Char} : SpaceIns x y → SpaceIns x (' ' :: y)

/-!
## Supporting lemmas
-/

theorem isLower_of_space : (' ').isLower = false := by decide

theorem not_isLower_of_isUpper {c : Char} (h : c.isUpper = true) : c.isLower = false := by
  simp [Char.isUpper, Char.isLower, UInt32.le_def, UInt32.lt_def, BitVec.le_def,
    BitVec.lt_def] at *
  omega

theorem not_isUpper_of_isLower {c : Char} (h : c.isLower = true) : c.isUpper = false := by
  simp [Char.isUpper, Char.isLower, UInt32.le_def, UInt32.lt_def, BitVec.le_def,
    BitVec.lt_def] at *
  omega

theorem not_isDigit_of_isAlpha {c : Char} (h : c.isAlpha = true) : c.isDigit = false := by
  simp [Char.isAlpha, Char.isUpper, Char.isLower, Char.isDigit, UInt32.le_def,
    UInt32.lt_def, BitVec.le_def, BitVec.lt_def] at *
  omega

theorem not_isAlpha_of_isDigit {c : Char} (h : c.isDigit = true) : c.isAlpha = false := by
  simp [Char.isAlpha, Char.isUpper, Char.isLower, Char.isDigit, UInt32.le_def,
    UInt32.lt_def, BitVec.le_def, BitVec.lt_def] at *
  omega

theorem periodPat_nonspace {a b c : Char} (h : periodPat a b c = true) :
    a ≠ ' ' ∧ b ≠ ' ' ∧ c ≠ ' ' := by
  simp [periodPat] at h
  refine ⟨?_, ?_, ?_⟩ <;> rintro rfl <;> simp_all

theorem percentPat_nonspace {a b c : Char} (h : percentPat a b c = true) :
    a ≠ ' ' ∧ b ≠ ' ' ∧ c ≠ ' ' := by
  simp [percentPat] at h
  refine ⟨?_, ?_, ?_⟩ <;> rintro rfl <;> simp_all

theorem numberPat_nonspace {a b : Char} (h : numberPat a b = true) :
    a ≠ ' ' ∧ b ≠ ' ' := by
  simp [numberPat] at h
  refine ⟨?_, ?_⟩ <;> rintro rfl <;> simp_all

theorem camelPat_nonspace {a b : Char} (h : camelPat a b = true) :
    a ≠ ' ' ∧ b ≠ ' ' := by
  simp [camelPat] at h
  refine ⟨?_, ?_⟩ <;> rintro rfl <;> simp_all

/-- Unfolding lemma: a triple occurrence in a cons decomposes into the
head window and the occurrences in the tail. -/
theorem hasTri_cons (P : Char → Char → Char → Bool) (a : Char) (l : List Char) :
    hasTri P (a :: l) = (hasTriHead P a l || hasTri P l) := rfl

theorem hasPair_cons (P : Char → Char → Bool) (a : Char) (l : List Char) :
    hasPair P (a :: l) = (hasPairHead P a l || hasPair P l) := rfl

theorem hasTriHead_false_of_first {P : Char → Char → Char → Bool} {a : Char}
    (h : ∀ b c, P a b c = false) (l : List Char) : hasTriHead P a l = false := by
  match l with
  | [] => rfl
  | [_] => rfl
  | b :: c :: _ => exact h b c

theorem hasPairHead_false_of_first {P : Char → Char → Bool} {a : Char}
    (h : ∀ b, P a b = false) (l : List Char) : hasPairHead P a l = false := by
  match l with
  | [] => rfl
  | b :: _ => exact h b

/-- SpaceIns is reflexive. -/
theorem SpaceIns.refl (l : List Char) : SpaceIns l l := by
  induction l with
  | nil => exact SpaceIns.nil
  | cons c rest ih => exact SpaceIns.cons c ih

/-- Characters of the target of a space insertion come from the source
or are spaces. -/
theorem SpaceIns.mem {x y : List Char} (h : SpaceIns x y) {c : Char} (hc : c ∈ y) :
    c = ' ' ∨ c ∈ x := by
  induction h with
  | nil => simp at hc
  | cons d h ih =>
    rcases List.mem_cons.mp hc with rfl | hc2
    · exact Or.inr (List.mem_cons_self _ _)
    · rcases ih hc2 with h1 | h1
      · exact Or.inl h1
      · exact Or.inr (List.mem_cons_of_mem _ h1)
  | sp h ih =>
    rcases List.mem_cons.mp hc with rfl | hc2
    · exact Or.inl rfl
    · exact ih hc2

/-- Inversion: a non-space head of the target is the head of the source. -/
theorem SpaceIns.head_inv {x : List Char} {a : Char} {y2 : List Char}
    (h : SpaceIns x (a :: y2)) (ha : a ≠ ' ') :
    ∃ x2, x = a :: x2 ∧ SpaceIns x2 y2 := by
  cases h with
  | cons c h2 => exact ⟨_, rfl, h2⟩
  | sp h2 => exact absurd rfl ha

/-- Inserting spaces cannot create an occurrence of a pattern none of
whose characters is a space. -/
theorem hasTri_eq_false_of_spaceIns {P : Char → Char → Char → Bool} {x y : List Char}
    (h : SpaceIns x y) (hP : ∀ a b c, P a b c = true → a ≠ ' ' ∧ b ≠ ' ' ∧ c ≠ ' ')
    (hx : hasTri P x = false) : hasTri P y = false := by
  induction h with
  | nil => rfl
  | @cons d x2 y2 h2 ih =>
    rw [hasTri_cons] at hx ⊢
    rcases Bool.or_eq_false_iff.mp hx with ⟨hx1, hx2⟩
    rw [Bool.or_eq_false_iff]
    refine ⟨?_, ih hx2⟩
    match y2, h2 with
    | [], _ => rfl
    | [b], _ => rfl
    | b :: c :: t2, h2 =>
      show P d b c = false
      by_cases hp : P d b c = true
      · exfalso
        obtain ⟨x3, rfl, h3⟩ := h2.head_inv (hP _ _ _ hp).2.1
        obtain ⟨x4, rfl, _⟩ := h3.head_inv (hP _ _ _ hp).2.2
        have he : hasTriHead P d (b :: c :: x4) = P d b c := rfl
        rw [he, hp] at hx1
        exact Bool.noConfusion hx1
      · exact Bool.not_eq_true _ |>.mp hp
  | sp h2 ih =>
    rw [hasTri_cons, Bool.or_eq_false_iff]
    constructor
    · refine hasTriHead_false_of_first (fun b c => ?_) _
      by_cases hp : P (' ') b c = true
      · exact absurd rfl (hP _ _ _ hp).1
      · exact Bool.not_eq_true _ |>.mp hp
    · exact ih hx

/-- Pair version of the transport lemma. -/
theorem hasPair_eq_false_of_spaceIns {P : Char → Char → Bool} {x y : List Char}
    (h : SpaceIns x y) (hP : ∀ a b, P a b = true → a ≠ ' ' ∧ b ≠ ' ')
    (hx : hasPair P x = false) : hasPair P y = false := by
  induction h with
  | nil => rfl
  | @cons d x2 y2 h2 ih =>
    rw [hasPair_cons] at hx ⊢
    rcases Bool.or_eq_false_iff.mp hx with ⟨hx1, hx2⟩
    rw [Bool.or_eq_false_iff]
    refine ⟨?_, ih hx2⟩
    match y2, h2 with
    | [], _ => rfl
    | b :: t2, h2 =>
      show P d b = false
      by_cases hp : P d b = true
      · exfalso
        obtain ⟨x3, rfl, _⟩ := h2.head_inv (hP _ _ hp).2
        have he : hasPairHead P d (b :: x3) = P d b := rfl
        rw [he, hp] at hx1
        exact Bool.noConfusion hx1
      · exact Bool.not_eq_true _ |>.mp hp
  | sp h2 ih =>
    rw [hasPair_cons, Bool.or_eq_false_iff]
    constructor
    · refine hasPairHead_false_of_first (fun b => ?_) _
      by_cases hp : P (' ') b = true
      · exact absurd rfl (hP _ _ hp).1
      · exact Bool.not_eq_true _ |>.mp hp
    · exact ih hx

/-- commaFix only inserts spaces. -/
theorem spaceIns_commaFix (l : List Char) : SpaceIns l (commaFix l) := by
  induction l using commaFix.induct with
  | case1 c1 c3 rest hcond ih =>
    rw [commaFix, if_pos hcond]
    exact SpaceIns.cons c1 (SpaceIns.cons ',' (SpaceIns.sp (SpaceIns.cons c3 ih)))
  | case2 c1 c3 rest hcond ih =>
    rw [commaFix, if_neg hcond]
    exact SpaceIns.cons c1 ih
  | case3 c rest hne ih =>
    rw [commaFix.eq_2 c rest hne]
    exact SpaceIns.cons c ih
  | case4 => exact SpaceIns.nil

/-- periodFix only inserts spaces. -/
theorem spaceIns_periodFix (l : List Char) : SpaceIns l (periodFix l) := by
  induction l using periodFix.induct with
  | case1 c1 c3 rest hcond ih =>
    rw [periodFix, if_pos hcond]
    exact SpaceIns.cons c1 (SpaceIns.cons '.' (SpaceIns.sp (SpaceIns.cons c3 ih)))
  | case2 c1 c3 rest hcond ih =>
    rw [periodFix, if_neg hcond]
    exact SpaceIns.cons c1 ih
  | case3 c rest hne ih =>
    rw [periodFix.eq_2 c rest hne]
    exact SpaceIns.cons c ih
  | case4 => exact SpaceIns.nil

/-- pipeFix only inserts spaces. -/
theorem spaceIns_pipeFix (l : List Char) : SpaceIns l (pipeFix l) := by
  induction l using pipeFix.induct with
  | case1 c1 c3 rest hcond ih =>
    rw [pipeFix, if_pos hcond]
    exact SpaceIns.cons c1 (SpaceIns.sp (SpaceIns.cons '|' (SpaceIns.sp (SpaceIns.cons c3 ih))))
  | case2 c1 c3 rest hcond ih =>
    rw [pipeFix, if_neg hcond]
    exact SpaceIns.cons c1 ih
  | case3 c rest hne ih =>
    rw [pipeFix.eq_2 c rest hne]
    exact SpaceIns.cons c ih
  | case4 => exact SpaceIns.nil

/-- colonFix only inserts spaces. -/
theorem spaceIns_colonFix (l : List Char) : SpaceIns l (colonFix l) := by
  induction l using colonFix.induct with
  | case1 c1 c3 rest hcond ih =>
    rw [colonFix, if_pos hcond]
    exact SpaceIns.cons c1 (SpaceIns.cons ':' (SpaceIns.sp (SpaceIns.cons c3 ih)))
  | case2 c1 c3 rest hcond ih =>
    rw [colonFix, if_neg hcond]
    exact SpaceIns.cons c1 ih
  | case3 c rest hne ih =>
    rw [colonFix.eq_2 c rest hne]
    exact SpaceIns.cons c ih
  | case4 => exact SpaceIns.nil

/-- percentFix only inserts spaces. -/
theorem spaceIns_percentFix (l : List Char) : SpaceIns l (percentFix l) := by
  induction l using percentFix.induct with
  | case1 c1 c3 rest hcond ih =>
    rw [percentFix, if_pos hcond]
    exact SpaceIns.cons c1 (SpaceIns.cons '%' (SpaceIns.sp (SpaceIns.cons c3 ih)))
  | case2 c1 c3 rest hcond ih =>
    rw [percentFix, if_neg hcond]
    exact SpaceIns.cons c1 ih
  | case3 c rest hne ih =>
    rw [percentFix.eq_2 c rest hne]
    exact SpaceIns.cons c ih
  | case4 => exact SpaceIns.nil

/-- numberFix only inserts spaces. -/
theorem spaceIns_numberFix (l : List Char) : SpaceIns l (numberFix l) := by
  induction l using numberFix.induct with
  | case1 c1 c2 rest hcond ih =>
    rw [numberFix, if_pos hcond]
    exact SpaceIns.cons c1 (SpaceIns.sp (SpaceIns.cons c2 ih))
  | case2 c1 c2 rest hcond ih =>
    rw [numberFix, if_neg hcond]
    exact SpaceIns.cons c1 ih
  | case3 l hne =>
    rw [numberFix.eq_2 l hne]
    exact SpaceIns.refl l

/-- camelFix only inserts spaces. -/
theorem spaceIns_camelFix (l : List Char) : SpaceIns l (camelFix l) := by
  induction l using camelFix.induct with
  | case1 c1 c2 rest hcond ih =>
    rw [camelFix, if_pos hcond]
    exact SpaceIns.cons c1 (SpaceIns.sp (SpaceIns.cons c2 ih))
  | case2 c1 c2 rest hcond ih =>
    rw [camelFix, if_neg hcond]
    exact SpaceIns.cons c1 ih
  | case3 l hne =>
    rw [camelFix.eq_2 l hne]
    exact SpaceIns.refl l

/-- Without a comma character the comma rule does nothing. -/
theorem commaFix_eq_self {l : List Char} (h : ',' ∉ l) : commaFix l = l := by
  induction l using commaFix.induct with
  | case1 c1 c3 rest hcond ih => exact absurd (by simp) h
  | case2 c1 c3 rest hcond ih => exact absurd (by simp) h
  | case3 c rest hne ih =>
    rw [commaFix.eq_2 c rest hne, ih (fun hm => h (List.mem_cons_of_mem c hm))]
  | case4 => rfl

/-- Without a pipe character the pipe rule does nothing. -/
theorem pipeFix_eq_self {l : List Char} (h : '|' ∉ l) : pipeFix l = l := by
  induction l using pipeFix.induct with
  | case1 c1 c3 rest hcond ih => exact absurd (by simp) h
  | case2 c1 c3 rest hcond ih => exact absurd (by simp) h
  | case3 c rest hne ih =>
    rw [pipeFix.eq_2 c rest hne, ih (fun hm => h (List.mem_cons_of_mem c hm))]
  | case4 => rfl

/-- Without a colon character the colon rule does nothing. -/
theorem colonFix_eq_self {l : List Char} (h : ':' ∉ l) : colonFix l = l := by
  induction l using colonFix.induct with
  | case1 c1 c3 rest hcond ih => exact absurd (by simp) h
  | case2 c1 c3 rest hcond ih => exact absurd (by simp) h
  | case3 c rest hne ih =>
    rw [colonFix.eq_2 c rest hne, ih (fun hm => h (List.mem_cons_of_mem c hm))]
  | case4 => rfl

/-- Without an occurrence of its pattern the period rule does nothing. -/
theorem periodFix_eq_self {l : List Char} (h : hasTri periodPat l = false) :
    periodFix l = l := by
  induction l using periodFix.induct with
  | case1 c1 c3 rest hcond ih =>
    exfalso
    rw [hasTri_cons] at h
    rcases Bool.or_eq_false_iff.mp h with ⟨h1, _⟩
    have he : hasTriHead periodPat c1 ('.' :: c3 :: rest) = periodPat c1 '.' c3 := rfl
    rw [he] at h1
    simp [periodPat] at h1
    simp at hcond
    simp [hcond.1, hcond.2] at h1
  | case2 c1 c3 rest hcond ih =>
    rw [periodFix, if_neg hcond]
    rw [hasTri_cons] at h
    rcases Bool.or_eq_false_iff.mp h with ⟨_, h2⟩
    rw [ih h2]
  | case3 c rest hne ih =>
    rw [hasTri_cons] at h
    rcases Bool.or_eq_false_iff.mp h with ⟨_, h2⟩
    rw [periodFix.eq_2 c rest hne, ih h2]
  | case4 => rfl

/-- Without an occurrence of its pattern the percent rule does nothing. -/
theorem percentFix_eq_self {l : List Char} (h : hasTri percentPat l = false) :
    percentFix l = l := by
  induction l using percentFix.induct with
  | case1 c1 c3 rest hcond ih =>
    exfalso
    rw [hasTri_cons] at h
    rcases Bool.or_eq_false_iff.mp h with ⟨h1, _⟩
    have he : hasTriHead percentPat c1 ('%' :: c3 :: rest) = percentPat c1 '%' c3 := rfl
    rw [he] at h1
    simp [percentPat] at h1
    simp at hcond
    simp [hcond.1, hcond.2] at h1
  | case2 c1 c3 rest hcond ih =>
    rw [percentFix, if_neg hcond]
    rw [hasTri_cons] at h
    rcases Bool.or_eq_false_iff.mp h with ⟨_, h2⟩
    rw [ih h2]
  | case3 c rest hne ih =>
    rw [hasTri_cons] at h
    rcases Bool.or_eq_false_iff.mp h with ⟨_, h2⟩
    rw [percentFix.eq_2 c rest hne, ih h2]
  | case4 => rfl

/-- Without an occurrence of its pattern the number rule does nothing. -/
theorem numberFix_eq_self {l : List Char} (h : hasPair numberPat l = false) :
    numberFix l = l := by
  induction l using numberFix.induct with
  | case1 c1 c2 rest hcond ih =>
    exfalso
    rw [hasPair_cons] at h
    rcases Bool.or_eq_false_iff.mp h with ⟨h1, _⟩
    have he : hasPairHead numberPat c1 (c2 :: rest) = numberPat c1 c2 := rfl
    rw [he] at h1
    simp [numberPat] at h1
    simp at hcond
    simp [hcond.1, hcond.2] at h1
  | case2 c1 c2 rest hcond ih =>
    rw [numberFix, if_neg hcond]
    rw [hasPair_cons] at h
    rcases Bool.or_eq_false_iff.mp h with ⟨_, h2⟩
    rw [ih h2]
  | case3 l hne =>
    rw [numberFix.eq_2 l hne]

/-- Without an occurrence of its pattern the camelCase rule does nothing. -/
theorem camelFix_eq_self {l : List Char} (h : hasPair camelPat l = false) :
    camelFix l = l := by
  induction l using camelFix.induct with
  | case1 c1 c2 rest hcond ih =>
    exfalso
    rw [hasPair_cons] at h
    rcases Bool.or_eq_false_iff.mp h with ⟨h1, _⟩
    have he : hasPairHead camelPat c1 (c2 :: rest) = camelPat c1 c2 := rfl
    rw [he] at h1
    simp [camelPat] at h1
    simp at hcond
    simp [hcond.1, hcond.2] at h1
  | case2 c1 c2 rest hcond ih =>
    rw [camelFix, if_neg hcond]
    rw [hasPair_cons] at h
    rcases Bool.or_eq_false_iff.mp h with ⟨_, h2⟩
    rw [ih h2]
  | case3 l hne =>
    rw [camelFix.eq_2 l hne]

/-- Without two adjacent spaces the space-collapsing rule does nothing. -/
theorem spacesFixF_eq_self {fuel : Nat} {l : List Char}
    (h : hasPair dblSpacePat l = false) : spacesFixF fuel l = l := by
  induction fuel, l using spacesFixF.induct with
  | case1 l => rfl
  | case2 fuel => rfl
  | case3 fuel rest ih =>
    exfalso
    rw [hasPair_cons] at h
    rcases Bool.or_eq_false_iff.mp h with ⟨h1, _⟩
    have he : hasPairHead dblSpacePat (' ') (' ' :: rest) = dblSpacePat ' ' ' ' := rfl
    rw [he] at h1
    simp [dblSpacePat] at h1
  | case4 fuel c rest hne ih =>
    rw [hasPair_cons] at h
    rcases Bool.or_eq_false_iff.mp h with ⟨_, h2⟩
    rw [spacesFixF.eq_4 fuel c rest hne, ih h2]

theorem spacesFix_eq_self {l : List Char} (h : hasPair dblSpacePat l = false) :
    spacesFix l = l := spacesFixF_eq_self h

theorem take_one_of_take_two {a b : List Char} (h : a.take 2 = b.take 2) :
    a.take 1 = b.take 1 := by
  have h1 := congrArg (fun l => List.take 1 l) h
  simpa [List.take_take] using h1

theorem eq_cons_cons_of_take_two {w : List Char} {a b : Char}
    (h : w.take 2 = [a, b]) : ∃ t, w = a :: b :: t := by
  match w, h with
  | x :: y :: t, h =>
    simp [List.take] at h
    exact ⟨t, by rw [h.1, h.2]⟩

theorem eq_cons_of_take_one {w : List Char} {a : Char}
    (h : w.take 1 = [a]) : ∃ t, w = a :: t := by
  match w, h with
  | x :: t, h =>
    simp [List.take] at h
    exact ⟨t, by rw [h]⟩

/-- The period rule preserves the first two characters. -/
theorem periodFix_take_two (l : List Char) : (periodFix l).take 2 = l.take 2 := by
  induction l using periodFix.induct with
  | case1 c1 c3 rest hcond ih =>
    rw [periodFix, if_pos hcond]
    simp [List.take_succ_cons]
  | case2 c1 c3 rest hcond ih =>
    rw [periodFix, if_neg hcond]
    simp [List.take_succ_cons]
    exact take_one_of_take_two ih
  | case3 c rest hne ih =>
    rw [periodFix.eq_2 c rest hne]
    simp [List.take_succ_cons]
    exact take_one_of_take_two ih
  | case4 => rfl

/-- The percent rule preserves the first two characters. -/
theorem percentFix_take_two (l : List Char) : (percentFix l).take 2 = l.take 2 := by
  induction l using percentFix.induct with
  | case1 c1 c3 rest hcond ih =>
    rw [percentFix, if_pos hcond]
    simp [List.take_succ_cons]
  | case2 c1 c3 rest hcond ih =>
    rw [percentFix, if_neg hcond]
    simp [List.take_succ_cons]
    exact take_one_of_take_two ih
  | case3 c rest hne ih =>
    rw [percentFix.eq_2 c rest hne]
    simp [List.take_succ_cons]
    exact take_one_of_take_two ih
  | case4 => rfl

/-- The number rule preserves the first character. -/
theorem numberFix_take_one (l : List Char) : (numberFix l).take 1 = l.take 1 := by
  induction l using numberFix.induct with
  | case1 c1 c2 rest hcond ih =>
    rw [numberFix, if_pos hcond]
    simp [List.take_succ_cons]
  | case2 c1 c2 rest hcond ih =>
    rw [numberFix, if_neg hcond]
    simp [List.take_succ_cons]
  | case3 l hne => rw [numberFix.eq_2 l hne]

/-- The camelCase rule preserves the first character. -/
theorem camelFix_take_one (l : List Char) : (camelFix l).take 1 = l.take 1 := by
  induction l using camelFix.induct with
  | case1 c1 c2 rest hcond ih =>
    rw [camelFix, if_pos hcond]
    simp [List.take_succ_cons]
  | case2 c1 c2 rest hcond ih =>
    rw [camelFix, if_neg hcond]
    simp [List.take_succ_cons]
  | case3 l hne => rw [camelFix.eq_2 l hne]

/-- The space-collapsing rule preserves the first character. -/
theorem spacesFixF_take_one (fuel : Nat) (l : List Char) :
    (spacesFixF fuel l).take 1 = l.take 1 := by
  induction fuel, l using spacesFixF.induct with
  | case1 l => rfl
  | case2 fuel => rfl
  | case3 fuel rest ih =>
    rw [spacesFixF.eq_3]
    simp [List.take_succ_cons]
  | case4 fuel c rest hne ih =>
    rw [spacesFixF.eq_4 fuel c rest hne]
    simp [List.take_succ_cons]

theorem spacesFix_take_one (l : List Char) : (spacesFix l).take 1 = l.take 1 :=
  spacesFixF_take_one l.length l

/-- The head of a dropWhile result fails the predicate. -/
theorem dropWhile_head_false (p : Char → Bool) (l : List Char) {a : Char}
    {t : List Char} (h : l.dropWhile p = a :: t) : p a = false := by
  induction l with
  | nil => simp [List.dropWhile] at h
  | cons c rest ih =>
    by_cases hc : p c
    · rw [List.dropWhile_cons_of_pos hc] at h
      exact ih h
    · rw [List.dropWhile_cons_of_neg hc] at h
      cases h
      exact Bool.not_eq_true _ |>.mp hc

/-- The output of the period rule has no occurrence of the period pattern:
the rule has no self-overlapping matches. -/
theorem periodFix_noTri (l : List Char) : hasTri periodPat (periodFix l) = false := by
  induction l using periodFix.induct with
  | case1 c1 c3 rest hcond ih =>
    rw [periodFix, if_pos hcond]
    simp at hcond
    have h3 : hasTriHead periodPat c3 (periodFix rest) = false := by
      refine hasTriHead_false_of_first (fun b c => ?_) _
      simp [periodPat, not_isLower_of_isUpper hcond.2]
    rw [hasTri_cons, hasTri_cons, hasTri_cons, hasTri_cons]
    simp only [Bool.or_eq_false_iff]
    refine ⟨?_, ?_, ?_, h3, ih⟩
    · show periodPat c1 '.' ' ' = false
      simp [periodPat, show (' ').isUpper = false from by decide]
    · show periodPat '.' ' ' c3 = false
      simp [periodPat, show ('.').isLower = false from by decide]
    · exact hasTriHead_false_of_first
        (fun b c => by simp [periodPat, show (' ').isLower = false from by decide]) _
  | case2 c1 c3 rest hcond ih =>
    rw [periodFix, if_neg hcond]
    rw [hasTri_cons, Bool.or_eq_false_iff]
    refine ⟨?_, ih⟩
    have ht : (periodFix ('.' :: c3 :: rest)).take 2 = ['.', c3] := by
      rw [periodFix_take_two]
      simp [List.take_succ_cons]
    obtain ⟨t, hw⟩ := eq_cons_cons_of_take_two ht
    rw [hw]
    show periodPat c1 '.' c3 = false
    simp [periodPat]
    intro hl
    simp [hl] at hcond
    simp [hcond]
  | case3 c rest hne ih =>
    rw [periodFix.eq_2 c rest hne]
    rw [hasTri_cons, Bool.or_eq_false_iff]
    refine ⟨?_, ih⟩
    match rest, hne with
    | [], _ => rfl
    | [r0], _ =>
      have ht : (periodFix [r0]).take 1 = [r0] := by
        rw [show periodFix [r0] = [r0] from rfl]
        rfl
      obtain ⟨t, hw⟩ := eq_cons_of_take_one ht
      rw [hw]
      match t, hw with
      | [], _ => rfl
      | t0 :: t1, hw =>
        exfalso
        have : ([r0] : List Char).length = (r0 :: t0 :: t1).length := by rw [← hw]; rfl
        simp at this
    | r0 :: r1 :: rest2, hne =>
      have ht : (periodFix (r0 :: r1 :: rest2)).take 2 = [r0, r1] := by
        rw [periodFix_take_two]
        simp [List.take_succ_cons]
      obtain ⟨t, hw⟩ := eq_cons_cons_of_take_two ht
      rw [hw]
      show periodPat c r0 r1 = false
      have hr0 : ¬ r0 = '.' := by
        intro hr
        exact hne r1 rest2 (by rw [hr])
      simp [periodPat, hr0]
  | case4 => rfl

/-- The output of the percent rule has no occurrence of the percent pattern. -/
theorem percentFix_noTri (l : List Char) : hasTri percentPat (percentFix l) = false := by
  induction l using percentFix.induct with
  | case1 c1 c3 rest hcond ih =>
    rw [percentFix, if_pos hcond]
    simp at hcond
    have h3 : hasTriHead percentPat c3 (percentFix rest) = false := by
      refine hasTriHead_false_of_first (fun b c => ?_) _
      simp [percentPat, not_isDigit_of_isAlpha hcond.2]
    rw [hasTri_cons, hasTri_cons, hasTri_cons, hasTri_cons]
    simp only [Bool.or_eq_false_iff]
    refine ⟨?_, ?_, ?_, h3, ih⟩
    · show percentPat c1 '%' ' ' = false
      simp [percentPat, show (' ').isAlpha = false from by decide]
    · show percentPat '%' ' ' c3 = false
      simp [percentPat, show ('%').isDigit = false from by decide]
    · exact hasTriHead_false_of_first
        (fun b c => by simp [percentPat, show (' ').isDigit = false from by decide]) _
  | case2 c1 c3 rest hcond ih =>
    rw [percentFix, if_neg hcond]
    rw [hasTri_cons, Bool.or_eq_false_iff]
    refine ⟨?_, ih⟩
    have ht : (percentFix ('%' :: c3 :: rest)).take 2 = ['%', c3] := by
      rw [percentFix_take_two]
      simp [List.take_succ_cons]
    obtain ⟨t, hw⟩ := eq_cons_cons_of_take_two ht
    rw [hw]
    show percentPat c1 '%' c3 = false
    simp [percentPat]
    intro hl
    simp [hl] at hcond
    simp [hcond]
  | case3 c rest hne ih =>
    rw [percentFix.eq_2 c rest hne]
    rw [hasTri_cons, Bool.or_eq_false_iff]
    refine ⟨?_, ih⟩
    match rest, hne with
    | [], _ => rfl
    | [r0], _ =>
      have ht : (percentFix [r0]).take 1 = [r0] := by
        rw [show percentFix [r0] = [r0] from rfl]
        rfl
      obtain ⟨t, hw⟩ := eq_cons_of_take_one ht
      rw [hw]
      match t, hw with
      | [], _ => rfl
      | t0 :: t1, hw =>
        exfalso
        have : ([r0] : List Char).length = (r0 :: t0 :: t1).length := by rw [← hw]; rfl
        simp at this
    | r0 :: r1 :: rest2, hne =>
      have ht : (percentFix (r0 :: r1 :: rest2)).take 2 = [r0, r1] := by
        rw [percentFix_take_two]
        simp [List.take_succ_cons]
      obtain ⟨t, hw⟩ := eq_cons_cons_of_take_two ht
      rw [hw]
      show percentPat c r0 r1 = false
      have hr0 : ¬ r0 = '%' := by
        intro hr
        exact hne r1 rest2 (by rw [hr])
      simp [percentPat, hr0]
  | case4 => rfl

/-- The output of the number rule has no occurrence of the number pattern. -/
theorem numberFix_noPair (l : List Char) : hasPair numberPat (numberFix l) = false := by
  induction l using numberFix.induct with
  | case1 c1 c2 rest hcond ih =>
    rw [numberFix, if_pos hcond]
    simp at hcond
    have h3 : hasPairHead numberPat c2 (numberFix rest) = false := by
      refine hasPairHead_false_of_first (fun b => ?_) _
      simp [numberPat, not_isDigit_of_isAlpha hcond.2]
    rw [hasPair_cons, hasPair_cons, hasPair_cons]
    simp only [Bool.or_eq_false_iff]
    refine ⟨?_, ?_, h3, ih⟩
    · show numberPat c1 ' ' = false
      simp [numberPat, show (' ').isAlpha = false from by decide]
    · show numberPat ' ' c2 = false
      simp [numberPat, show (' ').isDigit = false from by decide]
  | case2 c1 c2 rest hcond ih =>
    rw [numberFix, if_neg hcond]
    rw [hasPair_cons, Bool.or_eq_false_iff]
    refine ⟨?_, ih⟩
    have ht : (numberFix (c2 :: rest)).take 1 = [c2] := by
      rw [numberFix_take_one]
      rfl
    obtain ⟨t, hw⟩ := eq_cons_of_take_one ht
    rw [hw]
    show numberPat c1 c2 = false
    simp at hcond
    simp [numberPat]
    intro hd
    exact hcond hd
  | case3 l hne =>
    rw [numberFix.eq_2 l hne]
    match l, hne with
    | [], _ => rfl
    | [c], hne => rfl
    | c1 :: c2 :: r, hne => exact absurd rfl (hne c1 c2 r)

/-- The output of the camelCase rule has no occurrence of the camel pattern. -/
theorem camelFix_noPair (l : List Char) : hasPair camelPat (camelFix l) = false := by
  induction l using camelFix.induct with
  | case1 c1 c2 rest hcond ih =>
    rw [camelFix, if_pos hcond]
    simp at hcond
    have h3 : hasPairHead camelPat c2 (camelFix rest) = false := by
      refine hasPairHead_false_of_first (fun b => ?_) _
      simp [camelPat, not_isLower_of_isUpper hcond.2]
    rw [hasPair_cons, hasPair_cons, hasPair_cons]
    simp only [Bool.or_eq_false_iff]
    refine ⟨?_, ?_, h3, ih⟩
    · show camelPat c1 ' ' = false
      simp [camelPat, show (' ').isUpper = false from by decide]
    · show camelPat ' ' c2 = false
      simp [camelPat, show (' ').isLower = false from by decide]
  | case2 c1 c2 rest hcond ih =>
    rw [camelFix, if_neg hcond]
    rw [hasPair_cons, Bool.or_eq_false_iff]
    refine ⟨?_, ih⟩
    have ht : (camelFix (c2 :: rest)).take 1 = [c2] := by
      rw [camelFix_take_one]
      rfl
    obtain ⟨t, hw⟩ := eq_cons_of_take_one ht
    rw [hw]
    show camelPat c1 c2 = false
    simp at hcond
    simp [camelPat]
    intro hd
    exact hcond hd
  | case3 l hne =>
    rw [camelFix.eq_2 l hne]
    match l, hne with
    | [], _ => rfl
    | [c], hne => rfl
    | c1 :: c2 :: r, hne => exact absurd rfl (hne c1 c2 r)

/-- The output of the space-collapsing rule has no two adjacent spaces. -/
theorem spacesFixF_nil (fuel : Nat) : spacesFixF fuel [] = [] := by
  cases fuel <;> rfl

theorem spacesFixF_noPair (fuel : Nat) (l : List Char) (hf : l.length ≤ fuel) :
    hasPair dblSpacePat (spacesFixF fuel l) = false := by
  induction fuel, l using spacesFixF.induct with
  | case1 l =>
    have : l = [] := List.length_eq_zero.mp (Nat.le_zero.mp hf)
    subst this
    rfl
  | case2 fuel => rfl
  | case3 fuel rest ih =>
    rw [spacesFixF.eq_3]
    rw [hasPair_cons, Bool.or_eq_false_iff]
    have hf2 : (rest.dropWhile (fun c => c == ' ')).length ≤ fuel := by
      have := dropWhile_length_le (fun c => c == ' ') rest
      simp at hf
      omega
    refine ⟨?_, ih hf2⟩
    have ht := spacesFixF_take_one fuel (rest.dropWhile (fun c => c == ' '))
    match hv : spacesFixF fuel (rest.dropWhile (fun c => c == ' ')) with
    | [] => rfl
    | v :: vt =>
      rw [hv] at ht
      show dblSpacePat ' ' v = false
      have hhd : (rest.dropWhile (fun c => c == ' ')).take 1 = [v] := by rw [← ht]; rfl
      obtain ⟨t2, hw2⟩ := eq_cons_of_take_one hhd
      have hvns : ¬ v = ' ' := by
        have hpv := dropWhile_head_false (fun c => c == ' ') rest hw2
        simpa using hpv
      simp [dblSpacePat, hvns]
  | case4 fuel c rest hne ih =>
    rw [spacesFixF.eq_4 fuel c rest hne]
    rw [hasPair_cons, Bool.or_eq_false_iff]
    have hf2 : rest.length ≤ fuel := by
      simp at hf
      omega
    refine ⟨?_, ih hf2⟩
    match rest, hne, hf2 with
    | [], _, _ =>
      rw [spacesFixF_nil]
      rfl
    | r0 :: rest2, hne, hf2 =>
      have ht : (spacesFixF fuel (r0 :: rest2)).take 1 = [r0] := by
        rw [spacesFixF_take_one]
        rfl
      obtain ⟨t, hw⟩ := eq_cons_of_take_one ht
      rw [hw]
      show dblSpacePat c r0 = false
      by_cases hc : c = ' '
      · subst hc
        have hr0 : ¬ r0 = ' ' := by
          intro hr
          exact hne rest2 rfl (by rw [hr])
        simp [dblSpacePat, hr0]
      · simp [dblSpacePat, hc]

theorem spacesFix_noPair (l : List Char) : hasPair dblSpacePat (spacesFix l) = false :=
  spacesFixF_noPair l.length l (Nat.le_refl _)

theorem hasTri_false_tail {P : Char → Char → Char → Bool} {a : Char} {l : List Char}
    (h : hasTri P (a :: l) = false) : hasTri P l = false := by
  rw [hasTri_cons] at h
  exact (Bool.or_eq_false_iff.mp h).2

theorem hasPair_false_tail {P : Char → Char → Bool} {a : Char} {l : List Char}
    (h : hasPair P (a :: l) = false) : hasPair P l = false := by
  rw [hasPair_cons] at h
  exact (Bool.or_eq_false_iff.mp h).2

theorem hasTri_false_dropWhile {P : Char → Char → Char → Bool} (q : Char → Bool)
    {l : List Char} (h : hasTri P l = false) : hasTri P (l.dropWhile q) = false := by
  induction l with
  | nil => simpa using h
  | cons c rest ih =>
    by_cases hc : q c
    · rw [List.dropWhile_cons_of_pos hc]
      exact ih (hasTri_false_tail h)
    · rwa [List.dropWhile_cons_of_neg hc]

theorem hasPair_false_dropWhile {P : Char → Char → Bool} (q : Char → Bool)
    {l : List Char} (h : hasPair P l = false) : hasPair P (l.dropWhile q) = false := by
  induction l with
  | nil => simpa using h
  | cons c rest ih =>
    by_cases hc : q c
    · rw [List.dropWhile_cons_of_pos hc]
      exact ih (hasPair_false_tail h)
    · rwa [List.dropWhile_cons_of_neg hc]

/-- Inversion for the space-collapsing rule: a non-space head of the
output, together with the following output character, heads the input. -/
theorem spacesFixF_cons_inv {fuel : Nat} {l : List Char} {a b : Char} {t : List Char}
    (h : spacesFixF fuel l = a :: b :: t) (ha : ¬ a = ' ') : ∃ t0, l = a :: b :: t0 := by
  match fuel with
  | 0 => exact ⟨t, h⟩
  | fuel + 1 =>
    match l with
    | [] => simp [spacesFixF] at h
    | c :: rest =>
      have hca : c = a := by
        have h1 := spacesFixF_take_one (fuel + 1) (c :: rest)
        rw [h] at h1
        simp [List.take_succ_cons] at h1
        exact h1.symm
      subst hca
      have hne : ∀ r1 : List Char, c = ' ' → rest = ' ' :: r1 → False := by
        intro r1 hc _
        exact ha hc
      rw [spacesFixF.eq_4 fuel c rest hne] at h
      have h2 : spacesFixF fuel rest = b :: t := by
        injection h with _ h2
      have h3 := spacesFixF_take_one fuel rest
      rw [h2] at h3
      simp [List.take_succ_cons] at h3
      obtain ⟨t0, ht0⟩ := eq_cons_of_take_one h3.symm
      exact ⟨t0, by rw [ht0]⟩

/-- Head-only inversion for the space-collapsing rule. -/
theorem spacesFixF_head_inv {fuel : Nat} {l : List Char} {a : Char} {t : List Char}
    (h : spacesFixF fuel l = a :: t) : ∃ t0, l = a :: t0 := by
  have h1 := spacesFixF_take_one fuel l
  rw [h] at h1
  simp [List.take_succ_cons] at h1
  exact eq_cons_of_take_one h1.symm

/-- Collapsing space runs cannot create an occurrence of a pattern
whose characters are non-spaces. -/
theorem hasTri_false_spacesFixF {P : Char → Char → Char → Bool}
    (hP : ∀ a b c, P a b c = true → a ≠ ' ' ∧ b ≠ ' ' ∧ c ≠ ' ')
    {fuel : Nat} {l : List Char} (h : hasTri P l = false) :
    hasTri P (spacesFixF fuel l) = false := by
  induction fuel, l using spacesFixF.induct with
  | case1 l => exact h
  | case2 fuel => exact h
  | case3 fuel rest ih =>
    rw [spacesFixF.eq_3, hasTri_cons, Bool.or_eq_false_iff]
    constructor
    · refine hasTriHead_false_of_first (fun b c => ?_) _
      by_cases hp : P (' ') b c = true
      · exact absurd rfl (hP _ _ _ hp).1
      · exact Bool.not_eq_true _ |>.mp hp
    · exact ih (hasTri_false_dropWhile _ (hasTri_false_tail (hasTri_false_tail h)))
  | case4 fuel c rest hne ih =>
    rw [spacesFixF.eq_4 fuel c rest hne, hasTri_cons, Bool.or_eq_false_iff]
    refine ⟨?_, ih (hasTri_false_tail h)⟩
    match hv : spacesFixF fuel rest with
    | [] => rfl
    | [w] => rfl
    | w0 :: w1 :: wt =>
      show P c w0 w1 = false
      by_cases hp : P c w0 w1 = true
      · exfalso
        obtain ⟨t0, ht0⟩ := spacesFixF_cons_inv hv (hP _ _ _ hp).2.1
        rw [hasTri_cons] at h
        have h1 := (Bool.or_eq_false_iff.mp h).1
        rw [ht0] at h1
        have he : hasTriHead P c (w0 :: w1 :: t0) = P c w0 w1 := rfl
        rw [he, hp] at h1
        exact Bool.noConfusion h1
      · exact Bool.not_eq_true _ |>.mp hp

/-- Collapsing space runs cannot create an occurrence of a pattern
whose characters are non-spaces. -/
theorem hasTri_false_spacesFix {P : Char → Char → Char → Bool}
    (hP : ∀ a b c, P a b c = true → a ≠ ' ' ∧ b ≠ ' ' ∧ c ≠ ' ')
    {l : List Char} (h : hasTri P l = false) : hasTri P (spacesFix l) = false :=
  hasTri_false_spacesFixF hP h

theorem hasPair_false_spacesFixF {P : Char → Char → Bool}
    (hP : ∀ a b, P a b = true → a ≠ ' ' ∧ b ≠ ' ')
    {fuel : Nat} {l : List Char} (h : hasPair P l = false) :
    hasPair P (spacesFixF fuel l) = false := by
  induction fuel, l using spacesFixF.induct with
  | case1 l => exact h
  | case2 fuel => exact h
  | case3 fuel rest ih =>
    rw [spacesFixF.eq_3, hasPair_cons, Bool.or_eq_false_iff]
    constructor
    · refine hasPairHead_false_of_first (fun b => ?_) _
      by_cases hp : P (' ') b = true
      · exact absurd rfl (hP _ _ hp).1
      · exact Bool.not_eq_true _ |>.mp hp
    · exact ih (hasPair_false_dropWhile _ (hasPair_false_tail (hasPair_false_tail h)))
  | case4 fuel c rest hne ih =>
    rw [spacesFixF.eq_4 fuel c rest hne, hasPair_cons, Bool.or_eq_false_iff]
    refine ⟨?_, ih (hasPair_false_tail h)⟩
    match hv : spacesFixF fuel rest with
    | [] => rfl
    | w0 :: wt =>
      show P c w0 = false
      by_cases hp : P c w0 = true
      · exfalso
        obtain ⟨t0, ht0⟩ := spacesFixF_head_inv hv
        rw [hasPair_cons] at h
        have h1 := (Bool.or_eq_false_iff.mp h).1
        rw [ht0] at h1
        have he : hasPairHead P c (w0 :: t0) = P c w0 := rfl
        rw [he, hp] at h1
        exact Bool.noConfusion h1
      · exact Bool.not_eq_true _ |>.mp hp

/-- Pair version of the previous lemma. -/
theorem hasPair_false_spacesFix {P : Char → Char → Bool}
    (hP : ∀ a b, P a b = true → a ≠ ' ' ∧ b ≠ ' ')
    {l : List Char} (h : hasPair P l = false) : hasPair P (spacesFix l) = false :=
  hasPair_false_spacesFixF hP h

theorem spacesFixF_mem {fuel : Nat} {l : List Char} {c : Char}
    (h : c ∈ spacesFixF fuel l) : c ∈ l := by
  induction fuel, l using spacesFixF.induct with
  | case1 l => exact h
  | case2 fuel => exact h
  | case3 fuel rest ih =>
    rw [spacesFixF.eq_3] at h
    rcases List.mem_cons.mp h with rfl | h2
    · exact List.mem_cons_self _ _
    · have h3 := ih h2
      have h4 : c ∈ rest := (List.dropWhile_sublist _).mem h3
      exact List.mem_cons_of_mem _ (List.mem_cons_of_mem _ h4)
  | case4 fuel d rest hne ih =>
    rw [spacesFixF.eq_4 fuel d rest hne] at h
    rcases List.mem_cons.mp h with rfl | h2
    · exact List.mem_cons_self _ _
    · exact List.mem_cons_of_mem _ (ih h2)

/-- The space-collapsing rule introduces no new characters. -/
theorem spacesFix_mem {l : List Char} {c : Char} (h : c ∈ spacesFix l) : c ∈ l :=
  spacesFixF_mem h

/-- The repair pass introduces no characters besides spaces. -/
theorem fixJamming_mem {l : List Char} {c : Char} (h : c ∈ fixJammingIssues l) :
    c = ' ' ∨ c ∈ l := by
  unfold fixJammingIssues at h
  have h1 := spacesFix_mem h
  rcases (spaceIns_camelFix _).mem h1 with h2 | h2
  · exact Or.inl h2
  rcases (spaceIns_percentFix _).mem h2 with h3 | h3
  · exact Or.inl h3
  rcases (spaceIns_numberFix _).mem h3 with h4 | h4
  · exact Or.inl h4
  rcases (spaceIns_colonFix _).mem h4 with h5 | h5
  · exact Or.inl h5
  rcases (spaceIns_pipeFix _).mem h5 with h6 | h6
  · exact Or.inl h6
  rcases (spaceIns_periodFix _).mem h6 with h7 | h7
  · exact Or.inl h7
  rcases (spaceIns_commaFix _).mem h7 with h8 | h8
  · exact Or.inl h8
  · exact Or.inr h8

/-- On separator-free input the three separator rules drop out of the
repair chain. -/
theorem fixJamming_eq_core {l : List Char} (hc : ',' ∉ l) (hcol : ':' ∉ l)
    (hp : '|' ∉ l) :
    fixJammingIssues l = spacesFix (camelFix (percentFix (numberFix (periodFix l)))) := by
  unfold fixJammingIssues
  rw [commaFix_eq_self hc]
  have hp1 : '|' ∉ periodFix l := by
    intro hm
    rcases (spaceIns_periodFix l).mem hm with h | h
    · exact absurd h (by decide)
    · exact hp h
  rw [pipeFix_eq_self hp1]
  have hcol1 : ':' ∉ periodFix l := by
    intro hm
    rcases (spaceIns_periodFix l).mem hm with h | h
    · exact absurd h (by decide)
    · exact hcol h
  rw [colonFix_eq_self hcol1]

/-- List-level idempotence of the repair pass on inputs without the
overlapping-chain separators. -/
theorem fixJamming_idem_list {l : List Char} (hc : ',' ∉ l) (hcol : ':' ∉ l)
    (hp : '|' ∉ l) :
    fixJammingIssues (fixJammingIssues l) = fixJammingIssues l := by
  have hcore := fixJamming_eq_core hc hcol hp
  set y := fixJammingIssues l with hy
  -- characters of y
  have hyc : ',' ∉ y := by
    intro hm
    rcases fixJamming_mem hm with h | h
    · exact absurd h (by decide)
    · exact hc h
  have hycol : ':' ∉ y := by
    intro hm
    rcases fixJamming_mem hm with h | h
    · exact absurd h (by decide)
    · exact hcol h
  have hyp : '|' ∉ y := by
    intro hm
    rcases fixJamming_mem hm with h | h
    · exact absurd h (by decide)
    · exact hp h
  -- pattern absences in y
  have pns : ∀ a b c, periodPat a b c = true → a ≠ ' ' ∧ b ≠ ' ' ∧ c ≠ ' ' :=
    fun _ _ _ h => periodPat_nonspace h
  have qns : ∀ a b c, percentPat a b c = true → a ≠ ' ' ∧ b ≠ ' ' ∧ c ≠ ' ' :=
    fun _ _ _ h => percentPat_nonspace h
  have nns : ∀ a b, numberPat a b = true → a ≠ ' ' ∧ b ≠ ' ' :=
    fun _ _ h => numberPat_nonspace h
  have cns : ∀ a b, camelPat a b = true → a ≠ ' ' ∧ b ≠ ' ' :=
    fun _ _ h => camelPat_nonspace h
  have hPer : hasTri periodPat y = false := by
    rw [hcore]
    exact hasTri_false_spacesFix pns
      (hasTri_eq_false_of_spaceIns (spaceIns_camelFix _) pns
        (hasTri_eq_false_of_spaceIns (spaceIns_percentFix _) pns
          (hasTri_eq_false_of_spaceIns (spaceIns_numberFix _) pns
            (periodFix_noTri l))))
  have hNum : hasPair numberPat y = false := by
    rw [hcore]
    exact hasPair_false_spacesFix nns
      (hasPair_eq_false_of_spaceIns (spaceIns_camelFix _) nns
        (hasPair_eq_false_of_spaceIns (spaceIns_percentFix _) nns
          (numberFix_noPair (periodFix l))))
  have hPct : hasTri percentPat y = false := by
    rw [hcore]
    exact hasTri_false_spacesFix qns
      (hasTri_eq_false_of_spaceIns (spaceIns_camelFix _) qns
        (percentFix_noTri (numberFix (periodFix l))))
  have hCam : hasPair camelPat y = false := by
    rw [hcore]
    exact hasPair_false_spacesFix cns
      (camelFix_noPair (percentFix (numberFix (periodFix l))))
  have hSp : hasPair dblSpacePat y = false := by
    rw [hcore]
    exact spacesFix_noPair _
  show fixJammingIssues y = y
  unfold fixJammingIssues
  rw [commaFix_eq_self hyc, periodFix_eq_self hPer, pipeFix_eq_self hyp,
    colonFix_eq_self hycol, numberFix_eq_self hNum, percentFix_eq_self hPct,
    camelFix_eq_self hCam, spacesFix_eq_self hSp]

/-- Inserting under a fresh key appends at the end of the dict. -/
theorem dictInsert_fresh {k : String} {v : List String} {d : List (String × List String)}
    (h : k ∉ d.map Prod.fst) : dictInsert k v d = d ++ [(k, v)] := by
  unfold dictInsert
  rw [if_neg]
  intro hc
  rcases List.any_eq_true.mp hc with ⟨p, hp, hpk⟩
  exact h (List.mem_map.mpr ⟨p, hp, by simpa using hpk⟩)

/-- Saving a bucket under a fresh section name appends its content. -/
theorem bucketSave_flatten {d : List (String × List String)} {cur : String}
    {content : List String} (h : cur ∉ d.map Prod.fst) :
    joinedBuckets (bucketSave d cur content) = joinedBuckets d ++ content := by
  unfold bucketSave
  by_cases hc : content.isEmpty
  · rw [if_pos hc]
    rw [List.isEmpty_iff.mp hc]
    simp
  · rw [if_neg hc, dictInsert_fresh h]
    unfold joinedBuckets
    simp

/-- Keys after saving a bucket under a fresh name. -/
theorem bucketSave_keys {d : List (String × List String)} {cur : String}
    {content : List String} {n : String}
    (h : cur ∉ d.map Prod.fst)
    (hn : n ∈ (bucketSave d cur content).map Prod.fst) :
    n ∈ d.map Prod.fst ∨ n = cur := by
  unfold bucketSave at hn
  by_cases hc : content.isEmpty
  · rw [if_pos hc] at hn
    exact Or.inl hn
  · rw [if_neg hc, dictInsert_fresh h] at hn
    simp at hn
    rcases hn with hn | hn
    · exact Or.inl (List.mem_map.mpr (by simpa using hn))
    · exact Or.inr hn

/-- The pattern table only produces the seven canonical section names,
never the reserved name of the header bucket. -/
theorem matchLine_ne_header {line : String} {n : String}
    (h : matchLine line = some n) : ¬ n = ("header") := by
  unfold matchLine at h
  split_ifs at h
  unfold matchSection at h
  dsimp only at h
  split_ifs at h <;> injection h with h2 <;> rw [← h2] <;> decide

/-- Invariant induction for the partition scan: with pairwise-distinct
matched section names, the concatenated bucket contents are exactly the
pending content followed by the non-header lines. -/
theorem parseAux_flatten (lines : List String) :
    ∀ (d : List (String × List String)) (cur : String) (content : List String),
    (lines.filterMap matchLine).Nodup →
    (∀ n ∈ lines.filterMap matchLine, n ∉ d.map Prod.fst ∧ n ≠ cur) →
    cur ∉ d.map Prod.fst →
    joinedBuckets (parseAux d cur content lines)
      = joinedBuckets d ++ content ++ lines.filter (fun l => matchLine l == none) := by
  induction lines with
  | nil =>
    intro d cur content _ _ hcur
    show joinedBuckets (bucketSave d cur content) = _
    rw [bucketSave_flatten hcur]
    simp
  | cons line rest ih =>
    intro d cur content hnd hdis hcur
    match hm : matchLine line with
    | none =>
      have hstep : parseAux d cur content (line :: rest)
          = parseAux d cur (content ++ [line]) rest := by
        rw [parseAux.eq_2, hm]
      rw [hstep]
      have hfm : (line :: rest).filterMap matchLine = rest.filterMap matchLine := by
        rw [List.filterMap_cons, hm]
      rw [hfm] at hnd hdis
      rw [ih d cur (content ++ [line]) hnd hdis hcur]
      have hfl : (line :: rest).filter (fun l => matchLine l == none)
          = line :: rest.filter (fun l => matchLine l == none) := by
        rw [List.filter_cons, if_pos (by simp [hm])]
      rw [hfl]
      simp
    | some name =>
      have hstep : parseAux d cur content (line :: rest)
          = parseAux (bucketSave d cur content) name [] rest := by
        rw [parseAux.eq_2, hm]
      rw [hstep]
      have hfm : (line :: rest).filterMap matchLine
          = name :: rest.filterMap matchLine := by
        rw [List.filterMap_cons, hm]
      rw [hfm] at hnd hdis
      have hnd2 := List.nodup_cons.mp hnd
      have hname := hdis name (List.mem_cons_self _ _)
      have hih := ih (bucketSave d cur content) name []
        hnd2.2
        (fun n hn => by
          have hdn := hdis n (List.mem_cons_of_mem _ hn)
          constructor
          · intro hk
            rcases bucketSave_keys hcur hk with hk2 | hk2
            · exact hdn.1 hk2
            · exact hdn.2 hk2
          · intro he
            subst he
            exact hnd2.1 hn)
        (fun hk => by
          rcases bucketSave_keys hcur hk with hk2 | hk2
          · exact hname.1 hk2
          · exact hname.2 hk2)
      rw [hih, bucketSave_flatten hcur]
      have hfl : (line :: rest).filter (fun l => matchLine l == none)
          = rest.filter (fun l => matchLine l == none) := by
        rw [List.filter_cons, if_neg (by simp [hm])]
      rw [hfl]
      simp

/-- When no line in the five-line trigger window yields a name
containing "Dr.", the header scan passes every line through: with
already-stripped lines it is the identity. -/
theorem rhAux_eq_drop (lines : List String)
    (hstr : ∀ l ∈ lines, pyStripS l = l)
    (hnd : ∀ j, j < 5 → containsSubS (headerNameOf (lines.getD j (""))) ("Dr.") = false) :
    ∀ fuel i, lines.length - i ≤ fuel → rhAux lines fuel i = lines.drop i := by
  intro fuel
  induction fuel with
  | zero =>
    intro i hf
    rw [rhAux.eq_1, List.drop_eq_nil_of_le (by omega)]
  | succ fuel ih =>
    intro i hf
    by_cases hi : i < lines.length
    · rw [rhAux.eq_2, if_pos hi]
      have hmem : lines.getD i ("") ∈ lines := by
        rw [List.getD_eq_getElem lines ("") hi]
        exact List.getElem_mem _
      have hline : pyStripS (lines.getD i ("")) = lines.getD i ("") := hstr _ hmem
      have hdropc : lines.drop i = lines.getD i ("") :: lines.drop (i + 1) := by
        rw [List.getD_eq_getElem lines ("") hi]
        exact List.drop_eq_getElem_cons hi
      by_cases hcond : (i == 0 ||
          decide (i < 5) && (containsSubS (pyStripS (lines.getD i (""))) ("Dr.") ||
            containsSubS (pyStripS (lines.getD i (""))) ("Anthony") ||
            containsSubS (pyStripS (lines.getD i (""))) ("Anyanwu"))) = true
      · rw [if_pos hcond]
        have h5 : i < 5 := by
          rcases Bool.or_eq_true _ _ |>.mp hcond with h0 | hrest
          · have : i = 0 := by simpa using h0
            omega
          · have := Bool.and_eq_true _ _ |>.mp hrest
            simpa using this.1
        have hdr := hnd i h5
        unfold headerNameOf at hdr
        rw [if_neg (by rw [hdr]; simp)]
        rw [hline, ih (i + 1) (by omega), ← hdropc]
      · rw [if_neg hcond, hline]
        by_cases hsec : isSectionStartLine (lines.getD i ("")) = true
        · rw [if_pos hsec, ← hdropc]
        · rw [if_neg hsec, ih (i + 1) (by omega), ← hdropc]
    · rw [rhAux.eq_2, if_neg hi, List.drop_eq_nil_of_le (by omega)]

/-- When the first line yields a "Dr."-containing name, the scan emits
the markdown name line first. -/
theorem restructureHeader_dr (lines : List String) (hne : lines ≠ [])
    (hdr : containsSubS (headerNameOf (lines.getD 0 (""))) ("Dr.") = true) :
    ∃ t, restructureHeader lines
      = ((("# ") ++ headerNameOf (lines.getD 0 (""))) :: t) := by
  unfold restructureHeader
  have hlen : 0 < lines.length := List.length_pos.mpr hne
  obtain ⟨n, hn⟩ : ∃ n, lines.length = n + 1 := ⟨lines.length - 1, by omega⟩
  rw [hn]
  rw [rhAux.eq_2, if_pos (by omega), if_pos (by simp)]
  unfold headerNameOf at hdr
  rw [if_pos hdr]
  rw [List.cons_append]
  exact ⟨_, rfl⟩

/-- The inner scan never changes the number of accepted blocks. -/
theorem scanExisting_snd_length (sim : String → String → Nat) (block : List String) :
    ∀ unique : List (List String), ((scanExisting sim block unique).2).length = unique.length := by
  intro unique
  induction unique with
  | nil => rfl
  | cons eb rest ih =>
    unfold scanExisting
    split_ifs with h1 h2
    · rfl
    · rfl
    · simpa using ih

/-- One step of the outer loop grows the unique list by at most one. -/
theorem dedupStep_length (sim : String → String → Nat) (unique : List (List String))
    (block : List String) : (dedupStep sim unique block).length ≤ unique.length + 1 := by
  unfold dedupStep
  split_ifs with h1
  · omega
  · dsimp only
    split_ifs with h2
    · rw [scanExisting_snd_length]
      omega
    · simp [scanExisting_snd_length]

/-- The fold over blocks retains at most one unique block per raw block. -/
theorem dedupFold_length_le (sim : String → String → Nat) :
    ∀ (blocks : List (List String)) (acc : List (List String)),
    (blocks.foldl (dedupStep sim) acc).length ≤ acc.length + blocks.length := by
  intro blocks
  induction blocks with
  | nil => intro acc; simp
  | cons b rest ih =>
    intro acc
    rw [List.foldl_cons]
    have h1 := ih (dedupStep sim acc b)
    have h2 := dedupStep_length sim acc b
    simp only [List.length_cons]
    omega

/-- The duplicate test applied by the scan: some accepted block has
similarity strictly above 80 with the candidate. -/
theorem scanExisting_fst_iff (sim : String → String → Nat) (block : List String)
    (unique : List (List String)) :
    (scanExisting sim block unique).1 = true
      ↔ ∃ eb ∈ unique, 80 < sim (strLower (blockText block)) (strLower (blockText eb)) := by
  induction unique with
  | nil => simp [scanExisting]
  | cons eb rest ih =>
    unfold scanExisting
    split_ifs with h1 h2
    · simp
      exact Or.inl h1
    · simp
      exact Or.inl h1
    · simp only []
      constructor
      · intro h
        rcases ih.mp h with ⟨eb2, hm, hs⟩
        exact ⟨eb2, List.mem_cons_of_mem _ hm, hs⟩
      · intro ⟨eb2, hm, hs⟩
        rcases List.mem_cons.mp hm with rfl | hm2
        · exact absurd hs h1
        · exact ih.mpr ⟨eb2, hm2, hs⟩

/-- With a pairwise similarity above 80, folding the remaining blocks
onto a singleton keeps a singleton drawn from the allowed pool. -/
theorem dedupFold_singleton {sim : String → String → Nat} {S : List (List String)}
    (hsim : ∀ b1 ∈ S, ∀ b2 ∈ S, 80 < sim (strLower (blockText b1)) (strLower (blockText b2))) :
    ∀ (rest : List (List String)) (x : List String), x ∈ S → (∀ b ∈ rest, b ∈ S) →
    ∃ y ∈ S, rest.foldl (dedupStep sim) [x] = [y] := by
  intro rest
  induction rest with
  | nil =>
    intro x hx _
    exact ⟨x, hx, rfl⟩
  | cons b rest2 ih =>
    intro x hx hmem
    rw [List.foldl_cons]
    have hb : b ∈ S := hmem b (List.mem_cons_self _ _)
    by_cases hbt : blockText b == ("")
    · have hstep : dedupStep sim [x] b = [x] := by
        unfold dedupStep
        rw [if_pos hbt]
      rw [hstep]
      exact ih x hx (fun b2 hb2 => hmem b2 (List.mem_cons_of_mem _ hb2))
    · have hs : 80 < sim (strLower (blockText b)) (strLower (blockText x)) :=
        hsim b hb x hx
      by_cases hbull : (blockHasBullets b && !(blockHasBullets x)) = true
      · have hstep : dedupStep sim [x] b = [b] := by
          unfold dedupStep scanExisting
          rw [if_neg hbt, if_pos hs, if_pos hbull]
          rfl
        rw [hstep]
        exact ih b hb (fun b2 hb2 => hmem b2 (List.mem_cons_of_mem _ hb2))
      · have hstep : dedupStep sim [x] b = [x] := by
          unfold dedupStep scanExisting
          rw [if_neg hbt, if_pos hs, if_neg hbull]
          rfl
        rw [hstep]
        exact ih x hx (fun b2 hb2 => hmem b2 (List.mem_cons_of_mem _ hb2))

/-- Scanning a run of non-blank lines extends the open block. -/
theorem groupAux_append_nonblank (b : List String)
    (hb : ∀ l ∈ b, ¬ pyStripS l == ("")) :
    ∀ (cur : List String) (rest : List String),
    groupAux cur (b ++ rest) = groupAux (cur ++ b) rest := by
  induction b with
  | nil => intro cur rest; simp
  | cons l b2 ih =>
    intro cur rest
    have hl : ¬ (pyStripS l == ("")) = true := by
      simpa using hb l (List.mem_cons_self _ _)
    show groupAux cur (l :: (b2 ++ rest)) = _
    rw [groupAux.eq_2, if_neg hl]
    rw [ih (fun x hx => hb x (List.mem_cons_of_mem _ hx)) (cur ++ [l]) rest]
    simp

/-- A prose block and a second block separated by one blank line group
into exactly those two blocks. -/
theorem groupBlocks_two {b1 b2 : List String}
    (h1 : ∀ l ∈ b1, ¬ pyStripS l == ("")) (h2 : ∀ l ∈ b2, ¬ pyStripS l == (""))
    (hne1 : b1 ≠ []) (hne2 : b2 ≠ []) :
    groupBlocks (b1 ++ [("")] ++ b2) = [b1, b2] := by
  unfold groupBlocks
  rw [List.append_assoc]
  show groupAux [] (b1 ++ (("") :: b2)) = _
  rw [groupAux_append_nonblank b1 h1 [] (("") :: b2)]
  show groupAux b1 (("") :: b2) = _
  rw [groupAux.eq_2]
  rw [if_pos (show (pyStripS ("") == ("")) = true from rfl)]
  rw [if_neg (fun hh => hne1 (List.isEmpty_iff.mp hh))]
  have hg : groupAux [] b2 = [b2] := by
    have hx := groupAux_append_nonblank b2 h2 [] []
    simp only [List.append_nil, List.nil_append] at hx
    rw [hx, groupAux.eq_1, if_neg (fun hh => hne2 (List.isEmpty_iff.mp hh))]
  rw [hg]

/-- A failed containment test means the split finds nothing. -/
theorem findSplit_eq_none {pat s : List Char} (h : containsSubL pat s = false) :
    findSplit pat s = none := by
  unfold containsSubL at h
  match hfs : findSplit pat s with
  | none => rfl
  | some x =>
    rw [hfs] at h
    simp at h

/-- Text without the preamble marker passes through the stripper
unchanged. -/
theorem scaffoldStripL_id {t : List Char} (h : containsSubL preambleMarker t = false) :
    scaffoldStripL t = t := by
  unfold scaffoldStripL
  rw [if_neg (by simp [h])]

/-- With a single marker occurrence and no trailing markers, the
stripper returns exactly the stripped suffix after the marker. -/
theorem scaffoldStripL_single {t p s : List Char}
    (hsplit : findSplit preambleMarker t = some (p, s))
    (h1 : containsSubL preambleMarker s = false)
    (h2 : containsSubL trailerMarker1 (pyStripL s) = false)
    (h3 : containsSubL trailerMarker2 (pyStripL s) = false) :
    scaffoldStripL t = pyStripL s := by
  have hp1 : pySplitPart1 preambleMarker t = s := by
    unfold pySplitPart1
    rw [hsplit]
    show (match findSplit preambleMarker s with
      | some (mid, _) => mid
      | none => s) = s
    rw [findSplit_eq_none h1]
  unfold scaffoldStripL
  rw [if_pos (by simp [containsSubL, hsplit])]
  dsimp only
  rw [hp1]
  rw [if_neg (show ¬ containsSubL trailerMarker1 (pyStripL s) = true by rw [h2]; simp)]
  rw [if_neg (show ¬ containsSubL trailerMarker2 (pyStripL s) = true by rw [h3]; simp)]

/-!
## Claim theorems
-/

/-- Claim C1, counterexample: the Artifact Repair pass is not
idempotent.  On the jammed chain "a,b,c" the comma rule consumes the
shared letter "b" with the first match (re.sub matches do not overlap),
so one application yields "a, b,c" and a second application yields
"a, b, c".  The colon and pipe rules fail the same way. -/
theorem c1_artifact_repair_counterexample :
    fixJammingStr (fixJammingStr ("a,b,c")) ≠ fixJammingStr ("a,b,c") ∧
    fixJammingStr ("a,b,c") = ("a, b,c") ∧
    fixJammingStr (fixJammingStr ("a,b,c")) = ("a, b, c") ∧
    fixJammingStr (fixJammingStr ("a:b:c")) ≠ fixJammingStr ("a:b:c") ∧
    fixJammingStr (fixJammingStr ("a|b|c")) ≠ fixJammingStr ("a|b|c") := by
  refine ⟨by decide, rfl, rfl, by decide, by decide⟩

/-- Claim C1 (amended): the Artifact Repair pass is idempotent on every
input that contains no comma, colon, or pipe character (the three rules
whose letter-separator-letter patterns can chain through a shared
letter); on such chains a second application inserts further spaces. -/
theorem c1_artifact_repair_idempotence (s : String)
    (hc : (',') ∉ s.data) (hcol : (':') ∉ s.data) (hp : ('|') ∉ s.data) :
    fixJammingStr (fixJammingStr s) = fixJammingStr s :=
  congrArg String.mk (fixJamming_idem_list hc hcol hp)

/-- Claim C1, witness: the amended idempotence applied to a concrete
separator-free input. -/
theorem c1_artifact_repair_witness :
    (',') ∉ ("He.Is a 5k runner").data ∧ (':') ∉ ("He.Is a 5k runner").data ∧
    ('|') ∉ ("He.Is a 5k runner").data ∧
    fixJammingStr (fixJammingStr ("He.Is a 5k runner")) = fixJammingStr ("He.Is a 5k runner") :=
  ⟨by decide, by decide, by decide,
    c1_artifact_repair_idempotence ("He.Is a 5k runner") (by decide) (by decide) (by decide)⟩

/-- Claim C10: the jamming-repair pass splits every camelCase adjacency:
after repair no lowercase letter is immediately followed by an uppercase
letter anywhere in the text, and "JavaScript" becomes "Java Script". -/
theorem c10_camel_split :
    (∀ l : List Char, hasPair camelPat (fixJammingIssues l) = false) ∧
    fixJammingStr ("JavaScript") = ("Java Script") := by
  constructor
  · intro l
    unfold fixJammingIssues
    exact hasPair_false_spacesFix (fun _ _ h => camelPat_nonspace h) (camelFix_noPair _)
  · rfl

/-- Claim C4, counterexample: the Artifact Repair pass leaves
"Engineer|555" unchanged — its pipe rule requires letters on both sides
of the pipe, and "5" is a digit.  The fallback formatter behaves the
same way.  The " | " spacing promised by the spec comes from the later
final-cleanup pass, not from repair. -/
theorem c4_spacing_counterexample :
    fixJammingStr ("Engineer|555") = ("Engineer|555") ∧
    basicFormattingFixes ("Engineer|555") = ("Engineer|555") ∧
    fixJammingStr ("Engineer|555") ≠ ("Engineer | 555") := by
  refine ⟨rfl, rfl, by decide⟩

/-- Claim C4 (amended): five of the six spacing examples hold under the
repair pass (and under the fallback formatter); "Engineer|555" is left
unchanged by repair and receives its " | " spacing from the
final-cleanup pipe normalization. -/
theorem c4_spacing_examples :
    fixJammingStr ("Python,Java") = ("Python, Java") ∧
    fixJammingStr ("development.Specializes") = ("development. Specializes") ∧
    fixJammingStr ("Languages:Python") = ("Languages: Python") ∧
    fixJammingStr ("5years") = ("5 years") ∧
    fixJammingStr ("40%improvement") = ("40% improvement") ∧
    fixJammingStr ("Engineer|555") = ("Engineer|555") ∧
    finalCleanup ("Engineer|555") = ("Engineer | 555") ∧
    basicFormattingFixes ("Python,Java") = ("Python, Java") ∧
    basicFormattingFixes ("development.Specializes") = ("development. Specializes") ∧
    basicFormattingFixes ("Languages:Python") = ("Languages: Python") ∧
    basicFormattingFixes ("5years") = ("5 years") ∧
    basicFormattingFixes ("40%improvement") = ("40% improvement") :=
  ⟨rfl, rfl, rfl, rfl, rfl, rfl, rfl, rfl, rfl, rfl, rfl, rfl⟩

/-- Claim C2, counterexample: when two header lines map to the same
canonical section name, the dict assignment in _parse_resume_sections
overwrites the earlier bucket, silently dropping its lines: partitioning
"SKILLS\na\nSKILLS\nb" keeps only the second skills bucket and the line
"a" belongs to no bucket of the result. -/
theorem c2_partition_counterexample :
    parseResumeSections ("SKILLS\na\nSKILLS\nb") = [(("skills"), [("b")])] ∧
    ("a") ∉ joinedBuckets (parseResumeSections ("SKILLS\na\nSKILLS\nb")) :=
  ⟨rfl, by decide⟩

/-- Claim C2 (amended): for non-empty input whose header lines match
pairwise-distinct canonical section names, the partitioner assigns every
line to exactly one bucket: the concatenation of all bucket contents, in
bucket order, is exactly the sequence of non-header lines of the input
(header lines serve as bucket delimiters). -/
theorem c2_partition_completeness (lines : List String) (_hne : lines ≠ [])
    (hnd : (lines.filterMap matchLine).Nodup) :
    joinedBuckets (parseBuckets lines) = lines.filter (fun l => matchLine l == none) := by
  unfold parseBuckets
  have h := parseAux_flatten lines [] ("header") [] hnd
    (fun n hn => by
      refine ⟨by simp, ?_⟩
      rcases List.mem_filterMap.mp hn with ⟨line, _, hml⟩
      exact matchLine_ne_header hml)
    (by simp)
  simpa using h

/-- Claim C2, witness: the amended completeness applied to a concrete
three-line input with one section header. -/
theorem c2_partition_witness :
    joinedBuckets (parseBuckets [("Jane"), ("SKILLS"), ("Python, Java")])
      = [("Jane"), ("SKILLS"), ("Python, Java")].filter (fun l => matchLine l == none) :=
  c2_partition_completeness [("Jane"), ("SKILLS"), ("Python, Java")] (by decide) (by decide)

/-- Claim C5, counterexample: the empty input does not produce an empty
model: the single empty line of "".split('\n') is accumulated into the
header bucket, which is saved because the Python list [''] is truthy, so
the result carries a header entry. -/
theorem c5_empty_input_counterexample :
    parseResumeSections ("") = [(("header"), [("")])] ∧
    parseResumeSections ("") ≠ [] :=
  ⟨rfl, by decide⟩

/-- Claim C5 (amended): the empty input raises no exception (every stage
is a total function) and yields a SectionModel whose only entry is a
header bucket holding one empty line, which the header cleaner renders
as the empty string; there are no named section entries. -/
theorem c5_empty_input :
    parseResumeSections ("") = [(("header"), [("")])] ∧
    cleanHeaderContent [("")] = ("") ∧
    (parseResumeSections ("")).map Prod.fst = [("header")] :=
  ⟨rfl, rfl, rfl⟩

/-- Claim C3, counterexample: the deduplicator recognizes only '*' and
'-' bullet markers, not the renderer marker "• ".  A prose block scanned
first survives against a later near-duplicate "• "-prefixed block
(similarity 95): the bulleted block is discarded. -/
theorem c3_bullet_counterexample :
    deduplicateProjectContent (fun _ _ => 95)
      [("Built the analytics suite"), (""), ("• Built the analytics suite")]
      = [("Built the analytics suite"), ("")] ∧
    ("• Built the analytics suite") ∉ deduplicateProjectContent (fun _ _ => 95)
      [("Built the analytics suite"), (""), ("• Built the analytics suite")] :=
  ⟨rfl, by decide⟩

/-- Claim C3 (amended): for near-duplicate blocks where exactly one
carries a '*'- or '-'-style bullet marker, the deduplicator retains the
bulleted block regardless of scan order (similarity is the external
fuzz.ratio, modelled as the function parameter sim, applied to the
lower-cased block texts; "duplicate" means similarity strictly above
80). -/
theorem c3_bullet_preference (sim : String → String → Nat) (b1 b2 : List String)
    (h1 : ∀ l ∈ b1, ¬ pyStripS l == ("")) (h2 : ∀ l ∈ b2, ¬ pyStripS l == (""))
    (hne1 : b1 ≠ []) (hne2 : b2 ≠ [])
    (ht1 : ¬ blockText b1 == ("")) (ht2 : ¬ blockText b2 == (""))
    (hb1 : blockHasBullets b1 = true) (hb2 : blockHasBullets b2 = false)
    (hs12 : 80 < sim (strLower (blockText b1)) (strLower (blockText b2)))
    (hs21 : 80 < sim (strLower (blockText b2)) (strLower (blockText b1))) :
    deduplicateProjectContent sim (b1 ++ [("")] ++ b2) = b1 ++ [("")] ∧
    deduplicateProjectContent sim (b2 ++ [("")] ++ b1) = b1 ++ [("")] := by
  have e0a : dedupStep sim [] b1 = [b1] := by
    unfold dedupStep
    rw [if_neg ht1]
    rfl
  have e0b : dedupStep sim [] b2 = [b2] := by
    unfold dedupStep
    rw [if_neg ht2]
    rfl
  constructor
  · unfold deduplicateProjectContent
    rw [groupBlocks_two h1 h2 hne1 hne2]
    have hscan : scanExisting sim b2 [b1] = (true, [b1]) := by
      unfold scanExisting
      rw [if_pos hs21]
      rw [if_neg (show ¬ (blockHasBullets b2 && !(blockHasBullets b1)) = true by
        rw [hb2]; simp)]
    have e2 : dedupStep sim [b1] b2 = [b1] := by
      unfold dedupStep
      rw [if_neg ht2, hscan]
      rfl
    show ((List.foldl (dedupStep sim) [] [b1, b2]).map (fun b => b ++ [("")])).flatten = _
    rw [List.foldl_cons, List.foldl_cons, List.foldl_nil, e0a, e2]
    simp
  · unfold deduplicateProjectContent
    rw [groupBlocks_two h2 h1 hne2 hne1]
    have hscan : scanExisting sim b1 [b2] = (true, [b1]) := by
      unfold scanExisting
      rw [if_pos hs12]
      rw [if_pos (show (blockHasBullets b1 && !(blockHasBullets b2)) = true by
        rw [hb1, hb2]; simp)]
    have e2 : dedupStep sim [b2] b1 = [b1] := by
      unfold dedupStep
      rw [if_neg ht1, hscan]
      rfl
    show ((List.foldl (dedupStep sim) [] [b2, b1]).map (fun b => b ++ [("")])).flatten = _
    rw [List.foldl_cons, List.foldl_cons, List.foldl_nil, e0b, e2]
    simp

/-- Claim C3, witness: the amended bullet preference applied to a
concrete pair at similarity 95, in both scan orders. -/
theorem c3_bullet_witness :
    deduplicateProjectContent (fun _ _ => 95)
      ([("* Led team")] ++ [("")] ++ [("Led the team")]) = [("* Led team")] ++ [("")] ∧
    deduplicateProjectContent (fun _ _ => 95)
      ([("Led the team")] ++ [("")] ++ [("* Led team")]) = [("* Led team")] ++ [("")] :=
  c3_bullet_preference (fun _ _ => 95) [("* Led team")] [("Led the team")]
    (by decide) (by decide) (by decide) (by decide) (by decide) (by decide)
    (by decide) (by decide) (by decide) (by decide)

/-- Claim C7, counterexample: at similarity exactly 80 — "at least the
threshold" — nothing is merged, because the code compares with a strict
"similarity > 80": both blocks survive. -/
theorem c7_dedup_counterexample :
    dedupBlocks (fun _ _ => 80) (groupBlocks [("alpha"), (""), ("beta")])
      = [[("alpha")], [("beta")]] ∧
    (dedupBlocks (fun _ _ => 80) (groupBlocks [("alpha"), (""), ("beta")])).length ≠ 1 :=
  ⟨rfl, by decide⟩

/-- Claim C7 (amended): the number of unique blocks retained is at most
the number of raw blocks, and is exactly 1 when every pair of raw blocks
has similarity strictly above 80 (the code's comparison is strict, so
similarity exactly at the threshold does not merge). -/
theorem c7_dedup_monotonicity (sim : String → String → Nat) (ls : List String) :
    (dedupBlocks sim (groupBlocks ls)).length ≤ (groupBlocks ls).length ∧
    (groupBlocks ls ≠ [] →
      (∀ b ∈ groupBlocks ls, ¬ blockText b == ("")) →
      (∀ b1 ∈ groupBlocks ls, ∀ b2 ∈ groupBlocks ls,
        80 < sim (strLower (blockText b1)) (strLower (blockText b2))) →
      (dedupBlocks sim (groupBlocks ls)).length = 1) := by
  constructor
  · have h := dedupFold_length_le sim (groupBlocks ls) []
    simpa [dedupBlocks] using h
  · intro hne hbt hsim
    obtain ⟨b0, rest, hg⟩ : ∃ b0 rest, groupBlocks ls = b0 :: rest := by
      match hgb : groupBlocks ls with
      | [] => exact absurd hgb hne
      | b0 :: rest => exact ⟨b0, rest, rfl⟩
    rw [hg] at hbt hsim ⊢
    unfold dedupBlocks
    rw [List.foldl_cons]
    have e1 : dedupStep sim [] b0 = [b0] := by
      unfold dedupStep
      rw [if_neg (hbt b0 (List.mem_cons_self _ _))]
      rfl
    rw [e1]
    obtain ⟨y, _, hfold⟩ := dedupFold_singleton hsim rest b0 (List.mem_cons_self _ _)
      (fun b hb => List.mem_cons_of_mem _ hb)
    rw [hfold]
    rfl

/-- Claim C7, witness: both parts of the amended statement at a concrete
similarity function strictly above the threshold. -/
theorem c7_dedup_witness :
    (dedupBlocks (fun _ _ => 85) (groupBlocks [("aaa"), (""), ("aab")])).length
      ≤ (groupBlocks [("aaa"), (""), ("aab")]).length ∧
    (dedupBlocks (fun _ _ => 85) (groupBlocks [("aaa"), (""), ("aab")])).length = 1 :=
  ⟨(c7_dedup_monotonicity (fun _ _ => 85) [("aaa"), (""), ("aab")]).1,
   (c7_dedup_monotonicity (fun _ _ => 85) [("aaa"), (""), ("aab")]).2
     (by decide) (by decide) (by decide)⟩

/-- Claim C9, counterexample: pipeline construction validates nothing —
it accepts only an output directory and always succeeds, and the
duplicate cut-off is the hard-coded strict constant 80 in
_deduplicate_project_content: similarity exactly 80 is not merged,
81 is, independent of any configuration. -/
theorem c9_threshold_counterexample :
    initV2 ("outputs") = { outputDir := ("outputs"), pdfOptions := defaultPdfOptions } ∧
    dedupBlocks (fun _ _ => 80) [[("first block")], [("second block")]]
      = [[("first block")], [("second block")]] ∧
    dedupBlocks (fun _ _ => 81) [[("first block")], [("second block")]]
      = [[("first block")]] :=
  ⟨rfl, rfl, rfl⟩

/-- Claim C9 (amended): there is no similarity_threshold configuration
option: the constructor takes only the output directory and always
succeeds without validation, and a candidate block counts as a duplicate
exactly when some accepted block has similarity strictly above the
hard-coded 80. -/
theorem c9_threshold_config :
    (∀ od : String, initV2 od = { outputDir := od, pdfOptions := defaultPdfOptions }) ∧
    (∀ (sim : String → String → Nat) (block : List String) (unique : List (List String)),
      (scanExisting sim block unique).1 = true
        ↔ ∃ eb ∈ unique, 80 < sim (strLower (blockText block)) (strLower (blockText eb))) :=
  ⟨fun _ => rfl, scanExisting_fst_iff⟩

/-- Claim C6, counterexample: an input with a non-blank line before the
first section header but without the literal "Dr." is passed through
unchanged — no header name line "# ..." is produced, so no HeaderBlock
with a non-empty name exists. -/
theorem c6_header_counterexample :
    restructureHeader [("Jane Doe"), ("PROFESSIONAL SUMMARY"), ("Great engineer")]
      = [("Jane Doe"), ("PROFESSIONAL SUMMARY"), ("Great engineer")] ∧
    pyStripS ("Jane Doe") ≠ ("") ∧
    (restructureHeader [("Jane Doe"), ("PROFESSIONAL SUMMARY"), ("Great engineer")]).all
      (fun l => !(startsWithS l ("# "))) = true :=
  ⟨rfl, by decide, by decide⟩

/-- Claim C6 (amended): header restructuring triggers only on the
hard-coded literal "Dr.": when no candidate line in the five-line window
yields a star-cleaned name containing "Dr.", the pass leaves
already-stripped lines unchanged; when the first line yields such a
name, the pass emits the markdown name line "# name" with a non-empty
name. -/
theorem c6_header_invariant :
    (∀ lines : List String, (∀ l ∈ lines, pyStripS l = l) →
      (∀ j, j < 5 → containsSubS (headerNameOf (lines.getD j (""))) ("Dr.") = false) →
      restructureHeader lines = lines) ∧
    (∀ lines : List String, lines ≠ [] →
      containsSubS (headerNameOf (lines.getD 0 (""))) ("Dr.") = true →
      ∃ t, restructureHeader lines = ((("# ") ++ headerNameOf (lines.getD 0 (""))) :: t) ∧
        headerNameOf (lines.getD 0 ("")) ≠ ("")) := by
  constructor
  · intro lines hstr hnd
    unfold restructureHeader
    rw [rhAux_eq_drop lines hstr hnd lines.length 0 (by omega)]
    exact List.drop_zero lines
  · intro lines hne hdr
    obtain ⟨t, ht⟩ := restructureHeader_dr lines hne hdr
    refine ⟨t, ht, ?_⟩
    intro he
    rw [he] at hdr
    exact absurd hdr (by decide)

/-- Claim C6, witness: the amended invariant applied to a no-trigger
input and to a "Dr."-triggered input. -/
theorem c6_header_witness :
    restructureHeader [("Alice Smith"), ("Builder of things")]
      = [("Alice Smith"), ("Builder of things")] ∧
    (∃ t, restructureHeader [("Dr. Jane Doe"), ("AI Engineer")]
        = ((("# ") ++ headerNameOf ([("Dr. Jane Doe"), ("AI Engineer")].getD 0 (""))) :: t) ∧
      headerNameOf ([("Dr. Jane Doe"), ("AI Engineer")].getD 0 ("")) ≠ ("")) :=
  ⟨c6_header_invariant.1 [("Alice Smith"), ("Builder of things")] (by decide) (by decide),
   c6_header_invariant.2 [("Dr. Jane Doe"), ("AI Engineer")] (by decide) (by decide)⟩

/-- Claim C8, counterexample: when the preamble marker occurs twice, the
stripper returns only the segment between the two occurrences (Python
split parts[1]), not the whole substring following the first marker. -/
theorem c8_scaffold_counterexample :
    scaffoldStrip (("Here is the final, document-ready content A Here is the final, document-ready content B"))
      = ("A") ∧
    pyStripS ((" A Here is the final, document-ready content B"))
      = ("A Here is the final, document-ready content B") ∧
    ("A") ≠ ("A Here is the final, document-ready content B") :=
  ⟨rfl, rfl, by decide⟩

/-- Claim C8 (amended): text without the preamble marker passes through
unchanged (and the stripper is a total function, so absent markers never
raise); with a single marker occurrence and no trailing markers the
stripper returns exactly the whitespace-stripped substring following the
marker; a repeated marker truncates at its second occurrence. -/
theorem c8_scaffold_contract :
    (∀ t : List Char, containsSubL preambleMarker t = false → scaffoldStripL t = t) ∧
    (∀ t p s : List Char, findSplit preambleMarker t = some (p, s) →
      containsSubL preambleMarker s = false →
      containsSubL trailerMarker1 (pyStripL s) = false →
      containsSubL trailerMarker2 (pyStripL s) = false →
      scaffoldStripL t = pyStripL s) :=
  ⟨fun _ h => scaffoldStripL_id h,
   fun _ _ _ h1 h2 h3 h4 => scaffoldStripL_single h1 h2 h3 h4⟩

/-- Claim C8, witness: the amended contract applied to marker-free text
and to text with a single leading marker. -/
theorem c8_scaffold_witness :
    scaffoldStripL (("no markers at all").data) = ("no markers at all").data ∧
    scaffoldStripL (("Here is the final, document-ready content Body text").data)
      = pyStripL ((" Body text").data) :=
  ⟨c8_scaffold_contract.1 (("no markers at all").data) (by decide),
   c8_scaffold_contract.2 (("Here is the final, document-ready content Body text").data)
     [] ((" Body text").data) (by decide) (by decide) (by decide) (by decide)⟩

end ZubeResume
